import Mathlib

/-!
# yalf: serial data logger (src/avr/yalf.c)

Shallow embedding of the AVR firmware: the USART receive ring buffer, the
start-up directory scan, the configuration file, and the capture / rotation
loop of `main`.

* Machine integers are natural numbers reduced modulo `2^w` where the C code
  computes in a `w`-bit unsigned type; `int` is the 16-bit `int` of avr-gcc
  (the code itself prints `uint32_t` with `%lu`).  Data bytes are values of
  `Fin 256`, C strings are lists of characters without the final NUL.
* `main` is a state machine: a program position `Pc`, the globals and the
  locals of `main`.  An event is one run of the receive interrupt, one run of
  the timer interrupt, or one step of `main`; the interrupts may come between
  any two steps, as they do on the hardware outside the atomic block.  The
  32-bit tick counter is read by `main` one byte at a time with interrupts
  enabled: the runs of the timer interrupt that fall between the byte loads
  are an input of the step that reads it (`load_u32`).
* The storage driver (FatFs) is outside the program: the result of each of its
  calls is an input of the step that makes the call (`Env`), and the calls
  issued are logged (`Op`), so that what reaches the log files can be read off
  the log.
* `error_blink_halt` never returns: the position `Pc.halt code` is final.
-/

namespace Yalf

/-! ## Constants of yalf.c -/

/-- A data byte (`uint8_t` read from the receive register `UDR0`). -/
abbrev Byte := Fin 256

/-- Size of the USART ring buffer: `#define BUF_USART_SIZE 256`. -/
def BUF_USART_SIZE : Nat := 256

/-- Size of the SD card staging block: `#define BUF_SDCARD_SIZE 128`. -/
def BUF_SDCARD_SIZE : Nat := 128

/-- Cast to `uint8_t`. -/
def u8 (n : Nat) : Nat := n % 256

/-- Cast to `uint32_t`. -/
def u32 (n : Nat) : Nat := n % 4294967296

/-! ## The USART ring buffer (yalf.c lines 58-61, 173-188, 329-335) -/

/-- The ring buffer globals `buf_usart_head`, `buf_usart_tail`, `buf_usart`. -/
structure Ring where
  buf_usart_head : Nat
  buf_usart_tail : Nat
  buf_usart : Nat → Byte

/-- The globals as initialised at program start (all zero). -/
def Ring.init : Ring :=
  { buf_usart_head := 0, buf_usart_tail := 0, buf_usart := fun _ => 0 }

/-- An empty buffer whose two indices both stand at `k`. -/
def Ring.emptyAt (k : Nat) : Ring :=
  { buf_usart_head := k, buf_usart_tail := k, buf_usart := fun _ => 0 }

/-- Store into the array: `buf_usart[k] = d`. -/
def arraySet (a : Nat → Byte) (k : Nat) (d : Byte) : Nat → Byte :=
  fun j => if j = k then d else a j

/-- The receive interrupt handler `ISR(USART_RX_vect)`.  `rxc` is the state of
the receive-complete flag `UCSR0A & (1 << RXC0)`, `udr` the byte in `UDR0`.
The result also tells whether the byte was stored. -/
def USART_RX_vect (rxc : Bool) (udr : Byte) (r : Ring) : Ring × Bool :=
  if !rxc then
    (r, false)
  else
    let next_tail := u8 (r.buf_usart_tail + 1) % BUF_USART_SIZE
    let d := udr
    if next_tail = r.buf_usart_head then
      (r, false)
    else
      ({ r with buf_usart := arraySet r.buf_usart r.buf_usart_tail d,
                buf_usart_tail := next_tail }, true)

/-- The byte-arrival handler run for a byte that has arrived (flag `RXC0` set). -/
def push (r : Ring) (d : Byte) : Ring := (USART_RX_vect true d r).1

/-- The handler run once for each byte of a sequence, in order. -/
def pushAll (r : Ring) (bs : List Byte) : Ring := bs.foldl push r

/-- The consumer path of `main` (lines 329-333): the test
`buf_usart_head != buf_usart_tail` followed by the atomic block that reads
`buf_usart[buf_usart_head]` and advances the head. -/
def pop (r : Ring) : Option (Byte × Ring) :=
  if r.buf_usart_head ≠ r.buf_usart_tail then
    some (r.buf_usart r.buf_usart_head,
          { r with buf_usart_head := u8 (r.buf_usart_head + 1) % BUF_USART_SIZE })
  else
    none

/-- The consumer path run `n` times; it stops as soon as the buffer is empty. -/
def popN : Nat → Ring → List Byte × Ring
  | 0, r => ([], r)
  | n + 1, r =>
    match pop r with
    | none => ([], r)
    | some (d, r1) => (d :: (popN n r1).1, (popN n r1).2)

/-- Number of bytes held: `(tail - head) mod 256`. -/
def Ring.count (r : Ring) : Nat :=
  (r.buf_usart_tail + 256 - r.buf_usart_head) % 256

/-- The bytes held, oldest first. -/
def Ring.contents (r : Ring) : List Byte :=
  (List.range r.count).map (fun j => r.buf_usart ((r.buf_usart_head + j) % 256))

/-- Both indices are 8-bit values. -/
def Ring.wf (r : Ring) : Prop := r.buf_usart_head < 256 ∧ r.buf_usart_tail < 256

/-- The buffer is full: the next tail would collide with the head. -/
def Ring.full (r : Ring) : Prop :=
  u8 (r.buf_usart_tail + 1) % BUF_USART_SIZE = r.buf_usart_head

/-! ## C library functions used by yalf.c -/

/-- C `strncmp` on NUL-terminated strings (the end of the list is the NUL):
difference of the first differing characters among the first `n`, else 0. -/
def strncmp : List Char → List Char → Nat → Int
  | _, _, 0 => 0
  | [], [], _ + 1 => 0
  | [], c2 :: _, _ + 1 => 0 - (c2.toNat : Int)
  | c1 :: _, [], _ + 1 => (c1.toNat : Int)
  | c1 :: s1, c2 :: s2, n + 1 =>
    if c1 = c2 then strncmp s1 s2 n else (c1.toNat : Int) - (c2.toNat : Int)

/-- C `strlen`. -/
def strlen (s : List Char) : Nat := s.length

/-- Membership in the scan set `0123456789`. -/
def isDigit (c : Char) : Bool := decide (48 ≤ c.toNat) && decide (c.toNat ≤ 57)

/-- Value of a run of decimal digits, accumulated left to right. -/
def digitsValue (ds : List Char) : Nat :=
  ds.foldl (fun acc c => acc * 10 + (c.toNat - 48)) 0

/-- Conversion to the 16-bit `int` of avr-gcc: the low 16 bits, two's complement. -/
def toInt16 (v : Nat) : Int :=
  if v % 65536 < 32768 then ((v % 65536 : Nat) : Int) else ((v % 65536 : Nat) : Int) - 65536

/-- The call `sscanf(fname, "%*[^0123456789]%d%*[^0123456789]", &n)`: a
non-empty run of non-digits is skipped, then `%d` converts the maximal run of
digits that follows into the `int` `n` (16 bits on AVR; the accumulated value
is stored through its low 16 bits).  Returns `rc` and the new value of `n`:
`rc = 0` when the name starts with a digit, `rc = -1` (EOF) when the input
ends before a digit, `rc = 1` after a conversion. -/
def sscanf_number (fname : List Char) (n : Int) : Int × Int :=
  let skipped := fname.takeWhile (fun c => !isDigit c)
  let rest := fname.dropWhile (fun c => !isDigit c)
  if skipped = [] then
    (if fname = [] then -1 else 0, n)
  else if rest = [] then
    (-1, n)
  else
    (1, toInt16 (digitsValue (rest.takeWhile isDigit)))

/-- Decimal digit character. -/
def digitChar (d : Nat) : Char := Char.ofNat (48 + d)

/-- Decimal digits of `n`, most significant first; `fuel` bounds their number. -/
def decimalAux : Nat → Nat → List Char → List Char
  | 0, _, acc => acc
  | fuel + 1, n, acc =>
    if n / 10 = 0 then digitChar (n % 10) :: acc
    else decimalAux fuel (n / 10) (digitChar (n % 10) :: acc)

/-- The conversion `%lu` of an `unsigned long` (32 bits, at most 10 digits). -/
def fmt_lu (n : Nat) : List Char := decimalAux 10 (u32 n) []

/-- The conversion `%05lu`: zero padding to a minimum width of 5. -/
def fmt_05lu (n : Nat) : List Char :=
  List.replicate (5 - (fmt_lu n).length) '0' ++ fmt_lu n

/-- `#define USART_CONFIG_FILENAME "config.txt"`. -/
def USART_CONFIG_FILENAME : List Char := "config.txt".toList

/-- `#define FILENAME_PREFIX "LOG"`. -/
def FILENAME_PREFIX : List Char := "LOG".toList

/-- `#define FILENAME_SUFFIX ".BFL"`. -/
def FILENAME_SUFFIX : List Char := ".BFL".toList

/-- The call `snprintf(filename, sizeof(filename), "%s%05lu%s", FILENAME_PREFIX,
filename_number, FILENAME_SUFFIX)` with `char filename[13]`: at most 12
characters are kept. -/
def snprintf_filename (filename_number : Nat) : List Char :=
  (FILENAME_PREFIX ++ fmt_05lu filename_number ++ FILENAME_SUFFIX).take 12

/-! ## Fault codes -/

def ERR_BLINK_SD_INIT : Nat := 2
def ERR_BLINK_SD_DIR : Nat := 3
def ERR_BLINK_SD_OPEN : Nat := 4
def ERR_BLINK_SD_WRITE : Nat := 5
def ERR_BLINK_SD_READ : Nat := 6
def ERR_BLINK_SD_CLOSE : Nat := 7
def ERR_BLINK_SD_SYNC : Nat := 8
def ERR_BLINK_USART_CONFIG : Nat := 9

/-- FatFs result code `FR_OK`. -/
def FR_OK : Nat := 0

/-! ## The start-up directory scan `filename_number_last` (lines 190-230) -/

/-- Conversion of an `int` to `uint32_t`. -/
def u32OfInt (x : Int) : Nat := (x % 4294967296).toNat

/-- The `while (1)` loop of `filename_number_last`.  The list holds the results
of the successive `f_readdir` calls (result code and `fname`); once it is
exhausted `f_readdir` reports the end of the directory (`FR_OK`, empty name).
The state is `n`, `file_num_last` and `file_conf_found`. -/
def readdir_loop : List (Nat × List Char) → Int → Int → Bool → Int × Bool
  | [], _, file_num_last, file_conf_found => (file_num_last, file_conf_found)
  | (fr, fname) :: rest, n, file_num_last, file_conf_found =>
    if fr ≠ FR_OK ∨ fname = [] then
      (file_num_last, file_conf_found)
    else
      let file_conf_found :=
        if strncmp USART_CONFIG_FILENAME fname (strlen USART_CONFIG_FILENAME) = 0 then true
        else file_conf_found
      if strncmp FILENAME_PREFIX fname 3 ≠ 0 then
        readdir_loop rest n file_num_last file_conf_found
      else
        let rc := (sscanf_number fname n).1
        let n := (sscanf_number fname n).2
        if rc ≠ 1 then
          readdir_loop rest n file_num_last file_conf_found
        else if file_num_last < n then
          readdir_loop rest n n file_conf_found
        else
          readdir_loop rest n file_num_last file_conf_found

/-- Number of `f_readdir` calls the loop makes on a stream of results. -/
def readdir_calls : List (Nat × List Char) → Nat
  | [] => 1
  | (fr, fname) :: rest =>
    if fr ≠ FR_OK ∨ fname = [] then 1 else 1 + readdir_calls rest

/-- The function `filename_number_last`, given the results of `f_opendir`, of
the `f_readdir` calls and of `f_closedir`.  `Except.error code` is a call of
`error_blink_halt(code)`, which never returns; otherwise the two values
stored through the pointers. -/
def filename_number_last (fr_opendir : Nat) (dir : List (Nat × List Char))
    (fr_closedir : Nat) : Except Nat (Nat × Bool) :=
  if fr_opendir ≠ 0 then
    Except.error ERR_BLINK_SD_DIR
  else
    let r := readdir_loop dir 0 0 false
    if fr_closedir ≠ 0 then
      Except.error ERR_BLINK_SD_DIR
    else
      Except.ok (u32OfInt r.1, r.2)

/-! ## The configuration record (lines 63-69, 285-302) -/

/-- The record `struct usart_config`. -/
structure usart_config where
  baud_rate : Nat
  data_bits : Nat
  parity : Char
  stop_bit : Nat
  timeout_sec_close : Nat
  deriving DecidableEq

/-- The NUL-terminated string held by a character buffer. -/
def cstr (buf : List Char) : List Char := buf.takeWhile (fun c => c ≠ Char.ofNat 0)

/-- The conversion `%hhu` of `printf`: the `uint8_t` argument in decimal. -/
def fmt_hhu (n : Nat) : List Char := decimalAux 10 (u8 n) []

/-- The call `snprintf(usart_config_str, sizeof(usart_config_str),
"%lu,%hhu,%c,%hhu,%hhu", ...)` with `char usart_config_str[128]`; the result
is the string then held by the buffer. -/
def snprintf_config (c : usart_config) : List Char :=
  cstr ((fmt_lu c.baud_rate ++ [','] ++ fmt_hhu c.data_bits ++ [','] ++ [c.parity] ++ [','] ++
    fmt_hhu c.stop_bit ++ [','] ++ fmt_hhu c.timeout_sec_close).take 127)

/-- C `isspace`. -/
def isspace (c : Char) : Bool :=
  decide (c.toNat = 32) || (decide (9 ≤ c.toNat) && decide (c.toNat ≤ 13))

/-- An unsigned integer conversion of `sscanf` after white space was skipped:
an optional sign, then a non-empty run of decimal digits, accumulated in 32
bits.  Returns the value and the rest of the input. -/
def scan_uint (s : List Char) : Option (Nat × List Char) :=
  let neg := decide (s.head? = some '-')
  let body := if s.head? = some '-' ∨ s.head? = some '+' then s.tail else s
  let ds := body.takeWhile isDigit
  if ds = [] then none
  else
    let v := u32 (digitsValue ds)
    some (if neg then u32 (4294967296 - v) else v, body.dropWhile isDigit)

/-- The call `sscanf(usart_config_str, "%lu,%hhu,%c,%hhu,%hhu", ...)`: the
number of fields converted (`-1` for EOF before the first) and the record
after the assignments made. -/
def sscanf_config (str : List Char) (c : usart_config) : Int × usart_config :=
  let s0 := str.dropWhile isspace
  if s0 = [] then (-1, c)
  else
    match scan_uint s0 with
    | none => (0, c)
    | some (v1, r1) =>
      let c1 := { c with baud_rate := u32 v1 }
      match r1 with
      | ',' :: t1 =>
        match scan_uint (t1.dropWhile isspace) with
        | none => (1, c1)
        | some (v2, r2) =>
          let c2 := { c1 with data_bits := u8 v2 }
          match r2 with
          | ',' :: p :: r3 =>
            let c3 := { c2 with parity := p }
            match r3 with
            | ',' :: t3 =>
              match scan_uint (t3.dropWhile isspace) with
              | none => (3, c3)
              | some (v4, r4) =>
                let c4 := { c3 with stop_bit := u8 v4 }
                match r4 with
                | ',' :: t4 =>
                  match scan_uint (t4.dropWhile isspace) with
                  | none => (4, c4)
                  | some (v5, _) => (5, { c4 with timeout_sec_close := u8 v5 })
                | _ => (4, c4)
            | _ => (3, c3)
          | _ => (2, c2)
      | _ => (1, c1)

/-- The default record of `main` (lines 249-255). -/
def usart_config_default : usart_config :=
  { baud_rate := 234000, data_bits := 8, parity := 'N', stop_bit := 1, timeout_sec_close := 3 }

/-! ## The program `main` as a state machine (lines 237-358) -/

/-- What one step of `main` receives from outside: the results reported by the
storage driver to its calls and, for a step that reads the tick counter, the
runs of the timer interrupt that fall inside that read. -/
structure Env where
  /-- Status of `disk_initialize`. -/
  ds : Nat
  /-- Result of `f_mount`. -/
  fr_mount : Nat
  /-- Result of `f_opendir`. -/
  fr_opendir : Nat
  /-- Results of the successive `f_readdir` calls. -/
  dir : List (Nat × List Char)
  /-- Result of `f_closedir`. -/
  fr_closedir : Nat
  /-- Result of `f_open`. -/
  fr_open : Nat
  /-- Result of `f_write`. -/
  fr_write : Nat
  /-- Bytes transferred by `f_write`. -/
  bw : Nat
  /-- Result of `f_read`. -/
  fr_read : Nat
  /-- Data delivered by `f_read`. -/
  rd : List Char
  /-- Result of `f_close`. -/
  fr_close : Nat
  /-- Runs of `ISR(TIMER0_COMPA_vect)` served, from the start of a read of
  `timer_10msec_cnt` by this step, before the load of its byte 0. -/
  isr0 : Nat
  /-- The same, before the load of byte 1. -/
  isr1 : Nat
  /-- The same, before the load of byte 2. -/
  isr2 : Nat
  /-- The same, before the load of byte 3. -/
  isr3 : Nat

/-- Calls issued to the storage driver and lines sent on the serial link. -/
inductive Op where
  | f_opendir
  | f_readdir
  | f_closedir
  /-- Call `f_open(name, mode)`; `create_new` for `FA_WRITE | FA_CREATE_NEW`,
  otherwise `FA_OPEN_EXISTING | FA_READ`. -/
  | f_open (name : List Char) (create_new : Bool)
  /-- The `f_write` of the configuration string (line 290). -/
  | cfg_write (str : List Char)
  /-- The `f_read` of the configuration file (line 294). -/
  | cfg_read
  | f_close
  /-- The `f_write` of the staging block (line 340), with its result and the
  bytes transferred. -/
  | log_write (data : List Byte) (fr : Nat) (bw : Nat)
  /-- Call `usart_tx_s(filename)`. -/
  | tx_s (str : List Char)
  /-- Call `usart_tx_s_int("written", written_total)`. -/
  | tx_written (n : Nat)
  deriving DecidableEq

/-- Position of `main` between two steps. -/
inductive Pc where
  /-- Before `disk_initialize` (line 268). -/
  | init
  /-- Before the call of `filename_number_last` (line 276). -/
  | scan
  /-- Before the `f_open` of the configuration file (line 278). -/
  | config
  /-- At the label `new_file` (line 309). -/
  | new_file
  /-- At the head of the body of `while (1)` (line 327). -/
  | top
  /-- At the test of the inner `while` (line 329). -/
  | drain
  /-- Before the atomic block (line 330). -/
  | pop
  /-- Before `buf_sdcard[i++] = uart_d` (line 334). -/
  | store
  /-- At `if (i > 0)` (line 337). -/
  | flush
  /-- At the rotation test (line 351). -/
  | rotate
  /-- Inside `error_blink_halt(code)`. -/
  | halt (code : Nat)
  deriving DecidableEq

/-- The state of the program: globals, the locals of `main`, the log of calls
issued, and the history of the bytes handled by the receive interrupt. -/
structure Sys where
  ring : Ring
  timer_10msec_cnt : Nat
  pc : Pc
  filename_number : Nat
  file_config_found : Bool
  filename : List Char
  usart_config : usart_config
  buf_sdcard : Nat → Byte
  uart_d : Byte
  i : Nat
  timer_last_write : Nat
  written_total : Nat
  /-- Calls issued so far, oldest first. -/
  ops : List Op
  /-- Bytes that arrived (handler run with `RXC0` set). -/
  rx_total : Nat
  /-- Bytes discarded by the handler because the buffer was full. -/
  rx_dropped : Nat
  /-- Bytes stored by the handler, oldest first. -/
  accepted : List Byte

/-- The state at reset. -/
def Sys.init : Sys :=
  { ring := Ring.init, timer_10msec_cnt := 0, pc := Pc.init, filename_number := 0,
    file_config_found := false, filename := [], usart_config := usart_config_default,
    buf_sdcard := fun _ => 0, uart_d := 0, i := 0, timer_last_write := 0, written_total := 0,
    ops := [], rx_total := 0, rx_dropped := 0, accepted := [] }

/-- Call of `error_blink_halt(code)`: it never returns. -/
def error_blink_halt (s : Sys) (code : Nat) : Sys := { s with pc := Pc.halt code }

/-- Unsigned 32-bit subtraction `a - b`. -/
def sub32 (a b : Nat) : Nat := (u32 a + 4294967296 - u32 b) % 4294967296

/-- A read of a `volatile uint32_t` by `main`.  The AVR loads it one byte at a
time, interrupts are enabled and there is no `ATOMIC_BLOCK` around it, so the
interrupt that increments the variable can run between two loads: byte `k` is
taken from the value the variable has after `dk` increments of `t`.  (The
order of the four loads is the compiler's; every order is covered, avr-gcc
loads byte 0 first, which gives `d0 ≤ d1 ≤ d2 ≤ d3`.) -/
def load_u32 (t d0 d1 d2 d3 : Nat) : Nat :=
  u32 (t + d0) % 256 + 256 * (u32 (t + d1) / 256 % 256) +
    65536 * (u32 (t + d2) / 65536 % 256) + 16777216 * (u32 (t + d3) / 16777216 % 256)

/-- The value `main` gets when it reads `timer_10msec_cnt` (lines 344, 351). -/
def read_timer (s : Sys) (e : Env) : Nat :=
  load_u32 s.timer_10msec_cnt e.isr0 e.isr1 e.isr2 e.isr3

/-- The value of `timer_10msec_cnt` once the read is over: the increments made
by the timer interrupt during the read are done. -/
def timer_after_read (s : Sys) (e : Env) : Nat :=
  u32 (s.timer_10msec_cnt + max (max e.isr0 e.isr1) (max e.isr2 e.isr3))

/-- The bytes `buf_sdcard[0 .. i-1]` handed to `f_write`. -/
def staged (s : Sys) : List Byte := (List.range s.i).map s.buf_sdcard

/-- Lines 268-274: `disk_initialize` and `f_mount`. -/
def step_init (s : Sys) (e : Env) : Sys :=
  if e.ds ≠ 0 then error_blink_halt s ERR_BLINK_SD_INIT
  else if e.fr_mount ≠ FR_OK then error_blink_halt s ERR_BLINK_SD_INIT
  else { s with pc := Pc.scan }

/-- Calls issued by `filename_number_last`. -/
def scan_ops (e : Env) : List Op :=
  if e.fr_opendir ≠ 0 then [Op.f_opendir]
  else [Op.f_opendir] ++ List.replicate (readdir_calls e.dir) Op.f_readdir ++ [Op.f_closedir]

/-- Line 276: the call of `filename_number_last`. -/
def step_scan (s : Sys) (e : Env) : Sys :=
  match filename_number_last e.fr_opendir e.dir e.fr_closedir with
  | Except.error code => error_blink_halt { s with ops := s.ops ++ scan_ops e } code
  | Except.ok (num, found) =>
    { s with ops := s.ops ++ scan_ops e, filename_number := num, file_config_found := found,
             pc := Pc.config }

/-- Lines 278-307: the configuration file is written with the default record
or read and parsed, then closed. -/
def step_config (s : Sys) (e : Env) : Sys :=
  let s1 := { s with ops := s.ops ++ [Op.f_open USART_CONFIG_FILENAME (!s.file_config_found)] }
  if e.fr_open ≠ FR_OK then error_blink_halt s1 ERR_BLINK_SD_OPEN
  else if !s.file_config_found then
    let str := snprintf_config s.usart_config
    let s2 := { s1 with ops := s1.ops ++ [Op.cfg_write str] }
    if !(decide (e.fr_write = FR_OK) && decide (e.bw = strlen str)) then
      error_blink_halt s2 ERR_BLINK_SD_WRITE
    else
      let s3 := { s2 with ops := s2.ops ++ [Op.f_close] }
      if e.fr_close ≠ FR_OK then error_blink_halt s3 ERR_BLINK_SD_CLOSE
      else { s3 with pc := Pc.new_file }
  else
    let s2 := { s1 with ops := s1.ops ++ [Op.cfg_read] }
    if e.fr_read ≠ FR_OK then error_blink_halt s2 ERR_BLINK_SD_READ
    else
      let r := sscanf_config (cstr (e.rd.take 128)) s.usart_config
      let s3 := { s2 with usart_config := r.2 }
      if r.1 ≠ 5 then error_blink_halt s3 ERR_BLINK_USART_CONFIG
      else
        let s4 := { s3 with ops := s3.ops ++ [Op.f_close] }
        if e.fr_close ≠ FR_OK then error_blink_halt s4 ERR_BLINK_SD_CLOSE
        else { s4 with pc := Pc.new_file }

/-- Lines 309-325, from the label `new_file` to the head of the loop. -/
def step_new_file (s : Sys) (e : Env) : Sys :=
  let filename_number := u32 (s.filename_number + 1)
  let filename := snprintf_filename filename_number
  let s1 := { s with filename_number := filename_number, filename := filename,
                     ops := s.ops ++ [Op.f_open filename true] }
  if e.fr_open ≠ FR_OK then error_blink_halt s1 ERR_BLINK_SD_OPEN
  else
    { s1 with buf_sdcard := fun _ => 0, i := 0, timer_last_write := 0, written_total := 0,
              ops := s1.ops ++ [Op.tx_s filename], pc := Pc.top }

/-- Line 329: the test of the inner loop. -/
def step_drain (s : Sys) : Sys :=
  if s.i < BUF_SDCARD_SIZE ∧ s.ring.buf_usart_head ≠ s.ring.buf_usart_tail then
    { s with pc := Pc.pop }
  else
    { s with pc := Pc.flush }

/-- Lines 330-333: the atomic block. -/
def step_pop (s : Sys) : Sys :=
  { s with uart_d := s.ring.buf_usart s.ring.buf_usart_head,
           ring := { s.ring with
             buf_usart_head := u8 (s.ring.buf_usart_head + 1) % BUF_USART_SIZE },
           pc := Pc.store }

/-- Line 334: `buf_sdcard[i++] = uart_d`. -/
def step_store (s : Sys) : Sys :=
  { s with buf_sdcard := arraySet s.buf_sdcard s.i s.uart_d, i := u8 (s.i + 1), pc := Pc.drain }

/-- Lines 337-348: the write of the staging block. -/
def step_flush (s : Sys) (e : Env) : Sys :=
  if s.i > 0 then
    let s1 := { s with ops := s.ops ++ [Op.log_write (staged s) e.fr_write e.bw] }
    if e.fr_write = FR_OK ∧ e.bw = s.i then
      { s1 with i := 0, written_total := u32 (s.written_total + e.bw),
                timer_last_write := read_timer s e,
                timer_10msec_cnt := timer_after_read s e, pc := Pc.rotate }
    else
      error_blink_halt s1 ERR_BLINK_SD_WRITE
  else
    { s with pc := Pc.rotate }

/-- Lines 350-357: the rotation test
`timer_last_write > 0 && timer_10msec_cnt - timer_last_write > 300` (the
counter is read only when the first operand holds), the close of the current
file and the jump to `new_file`. -/
def step_rotate (s : Sys) (e : Env) : Sys :=
  if s.timer_last_write > 0 then
    let s0 := { s with timer_10msec_cnt := timer_after_read s e }
    if sub32 (read_timer s e) s.timer_last_write > 300 then
      let s1 := { s0 with ops := s.ops ++ [Op.f_close] }
      if e.fr_close ≠ FR_OK then error_blink_halt s1 ERR_BLINK_SD_CLOSE
      else { s1 with ops := s1.ops ++ [Op.tx_written s.written_total], pc := Pc.new_file }
    else
      { s0 with pc := Pc.top }
  else
    { s with pc := Pc.top }

/-- One step of `main` from its current position. -/
def main_step (s : Sys) (e : Env) : Sys :=
  match s.pc with
  | Pc.init => step_init s e
  | Pc.scan => step_scan s e
  | Pc.config => step_config s e
  | Pc.new_file => step_new_file s e
  | Pc.top => { s with pc := Pc.drain }
  | Pc.drain => step_drain s
  | Pc.pop => step_pop s
  | Pc.store => step_store s
  | Pc.flush => step_flush s e
  | Pc.rotate => step_rotate s e
  | Pc.halt _ => s

/-- What can happen next: the receive interrupt, the timer interrupt, or one
step of `main`. -/
inductive Event where
  /-- The receive interrupt `ISR(USART_RX_vect)` with the flag `RXC0` (`rxc`)
  and the content of `UDR0`. -/
  | rx (rxc : Bool) (udr : Byte)
  /-- The timer interrupt `ISR(TIMER0_COMPA_vect)`. -/
  | tick
  /-- One step of `main` with the results reported by the storage driver. -/
  | main (e : Env)

/-- The receive interrupt on the whole state, with the history kept. -/
def step_rx (s : Sys) (rxc : Bool) (udr : Byte) : Sys :=
  let r := USART_RX_vect rxc udr s.ring
  { s with ring := r.1,
           rx_total := if rxc then s.rx_total + 1 else s.rx_total,
           rx_dropped := if rxc && !r.2 then s.rx_dropped + 1 else s.rx_dropped,
           accepted := if r.2 then s.accepted ++ [udr] else s.accepted }

/-- The timer interrupt: `timer_10msec_cnt++`. -/
def step_tick (s : Sys) : Sys :=
  { s with timer_10msec_cnt := u32 (s.timer_10msec_cnt + 1) }

/-- One event. -/
def step (s : Sys) : Event → Sys
  | Event.rx rxc udr => step_rx s rxc udr
  | Event.tick => step_tick s
  | Event.main e => main_step s e

/-- A run: a sequence of events from a state. -/
def run (s : Sys) (es : List Event) : Sys := es.foldl step s

/-- Effect of one call on the log files on storage: an `f_open` with
`FA_CREATE_NEW` of a name other than the configuration file starts a new file,
a write of the staging block appends the bytes transferred to the newest one. -/
def apply_op (files : List (List Char × List Byte)) : Op → List (List Char × List Byte)
  | Op.f_open name true =>
    if name = USART_CONFIG_FILENAME then files else files ++ [(name, [])]
  | Op.log_write data _ bw =>
    match files.getLast? with
    | none => [([], data.take bw)]
    | some f => files.dropLast ++ [(f.1, f.2 ++ data.take bw)]
  | _ => files

/-- The log files on storage, in creation order, with their content. -/
def log_files (ops : List Op) : List (List Char × List Byte) := ops.foldl apply_op []

/-- All bytes written to the log files, concatenated in file order. -/
def written_bytes (ops : List Op) : List Byte := ((log_files ops).map Prod.snd).flatten

/-- An environment in which every storage call succeeds; `f_write` transfers
`bw` bytes, the directory has the entries `names`, and no timer interrupt
falls inside a read of the tick counter. -/
def Env.ok (names : List (List Char)) (bw : Nat) : Env :=
  { ds := 0, fr_mount := 0, fr_opendir := 0, dir := names.map (fun n => (0, n)),
    fr_closedir := 0, fr_open := 0, fr_write := 0, bw := bw, fr_read := 0,
    rd := "234000,8,N,1,3".toList, fr_close := 0, isr0 := 0, isr1 := 0, isr2 := 0, isr3 := 0 }

/-- As `Env.ok`, with one run of the timer interrupt between the load of byte
0 and the loads of bytes 1 to 3 of the tick counter. -/
def Env.tick_after_byte0 (bw : Nat) : Env :=
  { Env.ok [] bw with isr1 := 1, isr2 := 1, isr3 := 1 }

/-- As `Env.ok`, with one run of the timer interrupt between the loads of
bytes 1 to 3 and the load of byte 0 of the tick counter (the order of loads of
a compiler that takes the high bytes first). -/
def Env.tick_before_byte0 (bw : Nat) : Env :=
  { Env.ok [] bw with isr0 := 1 }

/-- The positions inside the capture loop `while (1)`. -/
def Pc.in_loop : Pc → Bool
  | Pc.top | Pc.drain | Pc.pop | Pc.store | Pc.flush | Pc.rotate => true
  | _ => false

/-- Whether a call is the write of a staging block. -/
def Op.is_log_write : Op → Bool
  | Op.log_write _ _ _ => true
  | _ => false

/-- Whether a call is an `f_open`. -/
def Op.is_open : Op → Bool
  | Op.f_open _ _ => true
  | _ => false

/-- Number of staging-block writes among the calls. -/
def count_writes (ops : List Op) : Nat := (ops.filter Op.is_log_write).length

/-- Number of `f_close` calls among the calls. -/
def count_closes (ops : List Op) : Nat := ops.count Op.f_close

/-- A state of the loop at the rotation test, for given tick values. -/
def Sys.at_rotate (timer last_write : Nat) : Sys :=
  { Sys.init with pc := Pc.rotate, timer_10msec_cnt := timer, timer_last_write := last_write }

/-- A state of the loop at `if (i > 0)` holding the given staged bytes. -/
def Sys.at_flush (bytes : List Byte) (total timer : Nat) : Sys :=
  { Sys.init with pc := Pc.flush, i := bytes.length, buf_sdcard := fun j => bytes.getD j 0,
                  written_total := total, timer_10msec_cnt := timer }

/-- An environment in which the first `f_readdir` fails with `FR_DISK_ERR`
(result code 1); every other call succeeds. -/
def Env.read_fails : Env := { Env.ok [] 14 with dir := [(1, [])] }

/-- An environment in which `f_opendir` fails with `FR_DISK_ERR`. -/
def Env.opendir_fails : Env := { Env.ok [] 14 with fr_opendir := 1 }

/-- An environment in which `f_closedir` fails with `FR_DISK_ERR`. -/
def Env.closedir_fails : Env := { Env.ok [] 14 with fr_closedir := 1 }

/-- An environment in which `f_write` fails with `FR_DISK_ERR`. -/
def Env.write_fails : Env := { Env.ok [] 3 with fr_write := 1 }

/-- Bytes a call transfers to a log file. -/
def op_bytes : Op → List Byte
  | Op.log_write data _ bw => data.take bw
  | _ => []

/-- The relation kept between the bytes stored by the receive handler, the
bytes written to the log files, the staging block and the ring buffer. -/
def Inv (s : Sys) : Prop :=
  s.ring.wf ∧ s.accepted.length + s.rx_dropped = s.rx_total ∧
  match s.pc with
  | Pc.halt _ => True
  | Pc.pop =>
    s.accepted = written_bytes s.ops ++ staged s ++ s.ring.contents ∧ s.i < 128 ∧
      s.ring.buf_usart_head ≠ s.ring.buf_usart_tail
  | Pc.store =>
    s.accepted = written_bytes s.ops ++ staged s ++ s.uart_d :: s.ring.contents ∧ s.i < 128
  | Pc.drain =>
    s.accepted = written_bytes s.ops ++ staged s ++ s.ring.contents ∧ s.i ≤ 128
  | Pc.flush =>
    s.accepted = written_bytes s.ops ++ staged s ++ s.ring.contents ∧ s.i ≤ 128
  | _ => s.accepted = written_bytes s.ops ++ s.ring.contents ∧ s.i = 0

/-- A short run: two bytes arrive during start-up, `main` boots on an empty
card, drains both bytes, writes them and comes back to the head of the loop;
a third byte arrives meanwhile. -/
def demo_run : List Event :=
  [Event.rx true 1, Event.main (Env.ok [] 14), Event.rx true 2, Event.main (Env.ok [] 14),
   Event.main (Env.ok [] 14), Event.tick, Event.main (Env.ok [] 14),
   Event.main (Env.ok [] 0), Event.main (Env.ok [] 0), Event.main (Env.ok [] 0),
   Event.main (Env.ok [] 0), Event.main (Env.ok [] 0), Event.main (Env.ok [] 0),
   Event.main (Env.ok [] 0), Event.main (Env.ok [] 0), Event.rx true 3,
   Event.main (Env.ok [] 2), Event.main (Env.ok [] 0)]

/-- Whether an event is one of the two interrupts. -/
def Event.is_isr : Event → Bool
  | Event.main _ => false
  | _ => true

/-- Number of `f_open` calls among the calls. -/
def count_opens (ops : List Op) : Nat := (ops.filter Op.is_open).length

/-- A state of the loop at the rotation test with log file `number` open. -/
def Sys.rotating (number timer last_write total : Nat) : Sys :=
  { Sys.init with pc := Pc.rotate, filename_number := number,
                  filename := snprintf_filename number, timer_10msec_cnt := timer,
                  timer_last_write := last_write, written_total := total }

/-- Two consecutive steps of `main` (results `e1`, then `e2`) with the
interrupts `isrs` served in between. -/
def two_steps (s : Sys) (e1 : Env) (isrs : List Event) (e2 : Env) : Sys :=
  main_step (run (main_step s e1) isrs) e2

/-- The 300 bytes `0, 1, ..., 255, 0, ..., 43`. -/
def demo_bytes : List Byte := (List.range 300).map (fun n => Fin.ofNat n)

/-! ## The claims' own words on file numbers -/

/-- The entry's name begins with the log-file prefix `LOG`. -/
def is_log_name (nm : List Char) : Bool := FILENAME_PREFIX.isPrefixOf nm

/-- The integer given by the first maximal run of decimal digits in a name
(0 when the name has no digit). -/
def first_number (nm : List Char) : Nat :=
  digitsValue ((nm.dropWhile (fun c => !isDigit c)).takeWhile isDigit)

/-- The maximum of `first_number` over the entries whose name begins with
`LOG`; 0 when there is no such entry. -/
def max_number (names : List (List Char)) : Nat :=
  ((names.filter is_log_name).map first_number).foldl max 0

/-- The `f_readdir` results for a directory with the given entry names, every
call succeeding. -/
def dir_of (names : List (List Char)) : List (Nat × List Char) :=
  names.map (fun nm => (FR_OK, nm))

/-- The events of a start-up: the four steps of `main` from reset to the head
of the capture loop (results `e0` for `disk_initialize` and `f_mount`, `e1`
for the directory scan, `e2` for the configuration file, `e3` for the first
log file), with the interrupts served before each of them. -/
def boot_events (i0 : List Event) (e0 : Env) (i1 : List Event) (e1 : Env)
    (i2 : List Event) (e2 : Env) (i3 : List Event) (e3 : Env) : List Event :=
  i0 ++ [Event.main e0] ++ i1 ++ [Event.main e1] ++ i2 ++ [Event.main e2] ++ i3 ++
    [Event.main e3]

/-- The fields of a record hold values of their C types: `uint32_t` baud
rate, `uint8_t` data bits, stop bits and idle timeout. -/
def usart_config.in_range (c : usart_config) : Prop :=
  c.baud_rate < 4294967296 ∧ c.data_bits < 256 ∧ c.stop_bit < 256 ∧ c.timeout_sec_close < 256

/-- The default record with the NUL character as parity. -/
def usart_config_nul_parity : usart_config :=
  { usart_config_default with parity := Char.ofNat 0 }

/-- A record with the largest field values and a comma as parity. -/
def usart_config_extreme : usart_config :=
  { baud_rate := 4294967295, data_bits := 255, parity := ',', stop_bit := 0,
    timeout_sec_close := 255 }

/-! ## Ring buffer lemmas -/

theorem push_wf (r : Ring) (d : Byte) (h : r.wf) : (push r d).wf := by
  unfold push USART_RX_vect Ring.wf at *
  simp only [Bool.not_true, Bool.false_eq_true, if_false, u8, BUF_USART_SIZE]
  split <;> simp <;> omega

theorem push_count (r : Ring) (d : Byte) (h : r.wf) (hc : r.count < 255) :
    (push r d).count = r.count + 1 := by
  unfold push USART_RX_vect Ring.wf Ring.count at *
  simp only [Bool.not_true, Bool.false_eq_true, if_false, u8, BUF_USART_SIZE]
  split
  · omega
  · simp only; omega

theorem push_contents (r : Ring) (d : Byte) (h : r.wf) (hc : r.count < 255) :
    (push r d).contents = r.contents ++ [d] := by
  have hcount := push_count r d h hc
  unfold Ring.contents
  rw [hcount, List.range_succ, List.map_append]
  unfold push USART_RX_vect Ring.wf Ring.count at *
  simp only [Bool.not_true, Bool.false_eq_true, if_false, u8, BUF_USART_SIZE]
  split
  · omega
  · simp only [List.map_cons, List.map_nil, arraySet]
    congr 1
    · apply List.map_congr_left
      intro j hj
      rw [List.mem_range] at hj
      rw [if_neg]
      omega
    · rw [if_pos]
      omega

theorem push_full (r : Ring) (d : Byte) (h : r.full) : push r d = r := by
  unfold push USART_RX_vect
  unfold Ring.full at h
  simp [h]

theorem full_iff_count (r : Ring) (h : r.wf) : r.full ↔ r.count = 255 := by
  unfold Ring.full Ring.count Ring.wf u8 BUF_USART_SIZE at *
  omega

theorem empty_iff_count (r : Ring) (h : r.wf) :
    r.buf_usart_head = r.buf_usart_tail ↔ r.count = 0 := by
  unfold Ring.count Ring.wf at *
  omega

theorem pop_none (r : Ring) (h : r.wf) (hc : r.count = 0) : pop r = none := by
  unfold pop
  rw [if_neg]
  rw [not_not]
  exact (empty_iff_count r h).mpr hc

theorem pop_some (r : Ring) (h : r.wf) (n : Nat) (hc : r.count = n + 1) :
    ∃ r1, pop r = some (r.buf_usart r.buf_usart_head, r1) ∧ r1.wf ∧ r1.count = n ∧
      r.contents = r.buf_usart r.buf_usart_head :: r1.contents := by
  have hne : r.buf_usart_head ≠ r.buf_usart_tail := by
    intro he
    have := (empty_iff_count r h).mp he
    omega
  refine ⟨{ r with buf_usart_head := u8 (r.buf_usart_head + 1) % BUF_USART_SIZE }, ?_, ?_, ?_, ?_⟩
  · unfold pop
    rw [if_pos hne]
  · unfold Ring.wf u8 BUF_USART_SIZE at *
    simp only
    omega
  · unfold Ring.wf Ring.count u8 BUF_USART_SIZE at *
    simp only
    omega
  · have hc1 : ({ r with buf_usart_head := u8 (r.buf_usart_head + 1) % BUF_USART_SIZE } : Ring).count
        = n := by
      unfold Ring.wf Ring.count u8 BUF_USART_SIZE at *
      simp only
      omega
    unfold Ring.contents
    rw [hc1, hc, List.range_succ_eq_map, List.map_cons, List.map_map]
    unfold Ring.wf at h
    congr 1
    · rw [Nat.add_zero, Nat.mod_eq_of_lt h.1]
    · apply List.map_congr_left
      intro j _
      simp only [Function.comp, u8, BUF_USART_SIZE]
      congr 1
      omega

theorem popN_spec (n : Nat) : ∀ r : Ring, r.wf →
    (popN n r).1 = r.contents.take n ∧ (popN n r).2.wf ∧
      (popN n r).2.count = r.count - n := by
  induction n with
  | zero =>
    intro r h
    simp [popN, h]
  | succ n ih =>
    intro r h
    cases hc : r.count with
    | zero =>
      have hnil : r.contents = [] := by
        unfold Ring.contents
        rw [hc]
        rfl
      simp [popN, pop_none r h hc, hnil, h, hc]
    | succ m =>
      obtain ⟨r1, hp, hwf1, hc1, hcont⟩ := pop_some r h m hc
      obtain ⟨ih1, ih2, ih3⟩ := ih r1 hwf1
      simp only [popN, hp, hcont, List.take_succ_cons, ih1, ih2, ih3, hc1, true_and]
      omega

theorem pushAll_spec (bs : List Byte) : ∀ r : Ring, r.wf → r.count + bs.length ≤ 255 →
    (pushAll r bs).contents = r.contents ++ bs ∧ (pushAll r bs).wf ∧
      (pushAll r bs).count = r.count + bs.length := by
  induction bs with
  | nil =>
    intro r h _
    simp [pushAll, h]
  | cons b bs ih =>
    intro r h hlen
    rw [List.length_cons] at hlen
    have hc : r.count < 255 := by omega
    have h1 := push_wf r b h
    have h2 := push_count r b h hc
    have h3 := push_contents r b h hc
    obtain ⟨ih1, ih2, ih3⟩ := ih (push r b) h1 (by omega)
    have hfold : pushAll r (b :: bs) = pushAll (push r b) bs := rfl
    rw [hfold, ih1, ih3, h3, h2, List.length_cons]
    refine ⟨by simp, ih2, by omega⟩

theorem pushAll_full (bs : List Byte) (r : Ring) (h : r.full) : pushAll r bs = r := by
  induction bs with
  | nil => rfl
  | cons b bs ih =>
    have hfold : pushAll r (b :: bs) = pushAll (push r b) bs := rfl
    rw [hfold, push_full r b h, ih]

theorem pushAll_append (r : Ring) (as bs : List Byte) :
    pushAll r (as ++ bs) = pushAll (pushAll r as) bs := by
  unfold pushAll
  rw [List.foldl_append]

/-- From an empty buffer, a sequence of at least 255 bytes leaves the buffer
full, holding the first 255 of them. -/
theorem pushAll_overflow (r : Ring) (h : r.wf) (he : r.buf_usart_head = r.buf_usart_tail)
    (bs : List Byte) (hlen : 255 ≤ bs.length) :
    pushAll r bs = pushAll r (bs.take 255) ∧ (pushAll r bs).full ∧ (pushAll r bs).wf ∧
      (pushAll r bs).contents = bs.take 255 := by
  have hc0 : r.count = 0 := (empty_iff_count r h).mp he
  have hnil : r.contents = [] := by
    unfold Ring.contents
    rw [hc0]
    rfl
  have htl : (bs.take 255).length = 255 := by
    rw [List.length_take]
    omega
  obtain ⟨h1, h2, h3⟩ := pushAll_spec (bs.take 255) r h (by omega)
  have hfull : (pushAll r (bs.take 255)).full :=
    (full_iff_count _ h2).mpr (by omega)
  have heq : pushAll r bs = pushAll r (bs.take 255) := by
    conv_lhs => rw [← List.take_append_drop 255 bs]
    rw [pushAll_append, pushAll_full _ _ hfull]
  rw [heq]
  refine ⟨rfl, hfull, h2, ?_⟩
  rw [h1, hnil, List.nil_append]

/-- The steps of `main` at lines 329-333 (inner loop test, then the atomic
block) do what `pop` does: with room in the staging block they take the byte
`pop` returns and leave the ring buffer `pop` leaves; on an empty buffer the
inner loop ends. -/
theorem consumer_steps_are_pop (s : Sys) (hi : s.i < BUF_SDCARD_SIZE) :
    (∀ d r1, pop s.ring = some (d, r1) →
      (step_drain s).pc = Pc.pop ∧ (step_pop (step_drain s)).uart_d = d ∧
        (step_pop (step_drain s)).ring = r1) ∧
    (pop s.ring = none → (step_drain s).pc = Pc.flush) := by
  unfold pop step_drain step_pop
  by_cases hne : s.ring.buf_usart_head = s.ring.buf_usart_tail
  · simp [hne, hi]
  · simp only [ne_eq, hne, not_false_eq_true, if_true, hi, and_self, Option.some.injEq,
      Prod.mk.injEq, and_imp, reduceCtorEq, false_implies, and_true]
    intro d r1 hd hr
    exact ⟨trivial, hd, hr⟩

/-! ## Claims on the ring buffer -/

/-- C1: from any empty state of the 256-slot ring buffer (head = tail, any
8-bit index), pushing `k < 255` bytes through the receive handler and then
running the consumer path `k` times returns exactly those bytes in push order
and leaves the buffer empty. -/
theorem ring_fifo_roundtrip (r : Ring) (bs : List Byte)
    (hidx : r.buf_usart_head < 256) (hempty : r.buf_usart_head = r.buf_usart_tail)
    (hk : bs.length < 255) :
    (popN bs.length (pushAll r bs)).1 = bs ∧
      (popN bs.length (pushAll r bs)).2.buf_usart_head
        = (popN bs.length (pushAll r bs)).2.buf_usart_tail := by
  have h : r.wf := ⟨hidx, hempty ▸ hidx⟩
  have hc0 : r.count = 0 := (empty_iff_count r h).mp hempty
  have hnil : r.contents = [] := by
    unfold Ring.contents
    rw [hc0]
    rfl
  obtain ⟨h1, h2, h3⟩ := pushAll_spec bs r h (by omega)
  obtain ⟨p1, p2, p3⟩ := popN_spec bs.length (pushAll r bs) h2
  refine ⟨?_, ?_⟩
  · rw [p1, h1, hnil, List.nil_append, List.take_length]
  · apply (empty_iff_count _ p2).mpr
    rw [p3, h3]
    omega

/-- Witness for C1: three bytes pushed at the wrap-around index 254. -/
theorem ring_fifo_roundtrip_witness :
    (popN 3 (pushAll (Ring.emptyAt 254) [7, 8, 9])).1 = [7, 8, 9] ∧
      (popN 3 (pushAll (Ring.emptyAt 254) [7, 8, 9])).2.buf_usart_head
        = (popN 3 (pushAll (Ring.emptyAt 254) [7, 8, 9])).2.buf_usart_tail :=
  ring_fifo_roundtrip (Ring.emptyAt 254) [7, 8, 9] (by decide) rfl (by decide)

/-- C2: from an empty buffer, for `k ≥ 256` pushed bytes and no interleaved
pops: the consumer's pops return exactly the first 255 bytes in order; every
push made while the buffer is full leaves head, tail and the stored bytes
unchanged (and every push after the 255th is such a push); the buffer is
empty after the 255th pop and not before. -/
theorem ring_overflow_keeps_first_255 (r : Ring) (bs : List Byte)
    (hidx : r.buf_usart_head < 256) (hempty : r.buf_usart_head = r.buf_usart_tail)
    (hk : 256 ≤ bs.length) :
    (∀ n, 255 ≤ n → (popN n (pushAll r bs)).1 = bs.take 255) ∧
    (∀ (q : Ring) (d : Byte), q.full → (USART_RX_vect true d q).1 = q) ∧
    (∀ j, 255 ≤ j → (pushAll r (bs.take j)).full) ∧
    (∀ j, j < 255 → (popN j (pushAll r bs)).2.buf_usart_head
        ≠ (popN j (pushAll r bs)).2.buf_usart_tail) ∧
    (popN 255 (pushAll r bs)).2.buf_usart_head
      = (popN 255 (pushAll r bs)).2.buf_usart_tail := by
  have h : r.wf := ⟨hidx, hempty ▸ hidx⟩
  obtain ⟨_, hfull, hwf, hcont⟩ := pushAll_overflow r h hempty bs (by omega)
  have hcnt : (pushAll r bs).count = 255 := (full_iff_count _ hwf).mp hfull
  have htl : (bs.take 255).length = 255 := by
    rw [List.length_take]
    omega
  refine ⟨?_, ?_, ?_, ?_, ?_⟩
  · intro n hn
    obtain ⟨p1, _, _⟩ := popN_spec n (pushAll r bs) hwf
    rw [p1, hcont]
    apply List.take_of_length_le
    omega
  · intro q d hq
    exact push_full q d hq
  · intro j hj
    have hlen : 255 ≤ (bs.take j).length := by
      rw [List.length_take]
      omega
    exact (pushAll_overflow r h hempty (bs.take j) hlen).2.1
  · intro j hj he
    obtain ⟨_, p2, p3⟩ := popN_spec j (pushAll r bs) hwf
    have := (empty_iff_count _ p2).mp he
    omega
  · obtain ⟨_, p2, p3⟩ := popN_spec 255 (pushAll r bs) hwf
    apply (empty_iff_count _ p2).mpr
    omega

/-- Witness for C2: 300 bytes pushed into the buffer empty at index 200. -/
theorem ring_overflow_keeps_first_255_witness :
    256 ≤ demo_bytes.length ∧
    (popN 255 (pushAll (Ring.emptyAt 200) demo_bytes)).1 = demo_bytes.take 255 ∧
    (popN 255 (pushAll (Ring.emptyAt 200) demo_bytes)).2.buf_usart_head
      = (popN 255 (pushAll (Ring.emptyAt 200) demo_bytes)).2.buf_usart_tail :=
  have h := ring_overflow_keeps_first_255 (Ring.emptyAt 200) demo_bytes (by decide) rfl
    (by simp [demo_bytes])
  ⟨by simp [demo_bytes], h.1 255 (Nat.le_refl _), h.2.2.2.2⟩

/-! ## The rotation test -/

theorem count_closes_append (a b : List Op) :
    count_closes (a ++ b) = count_closes a + count_closes b := by
  unfold count_closes
  rw [List.count_append]

theorem count_writes_append (a b : List Op) :
    count_writes (a ++ b) = count_writes a + count_writes b := by
  unfold count_writes
  rw [List.filter_append, List.length_append]

theorem load_u32_lt (t d0 d1 d2 d3 : Nat) : load_u32 t d0 d1 d2 d3 < 4294967296 := by
  unfold load_u32 u32
  omega

/-- A read during which the interrupt does not run between two loads gives the
value of the counter. -/
theorem load_u32_untorn (t d : Nat) : load_u32 t d d d d = (t + d) % 4294967296 := by
  unfold load_u32 u32
  omega

/-- With no timer interrupt inside the read, the rotation test computes on the
counter itself. -/
theorem sub32_read_timer_untorn (s : Sys) (e : Env) (b : Nat) (h0 : e.isr0 = 0)
    (h1 : e.isr1 = 0) (h2 : e.isr2 = 0) (h3 : e.isr3 = 0) :
    sub32 (read_timer s e) b = sub32 s.timer_10msec_cnt b := by
  unfold read_timer
  rw [h0, h1, h2, h3, load_u32_untorn]
  unfold sub32 u32
  omega

/-- The unsigned 32-bit subtraction, in plain arithmetic. -/
theorem sub32_spec (a b : Nat) (ha : a < 4294967296) (hb : b < 4294967296) :
    sub32 a b = (a + 4294967296 - b) % 4294967296 ∧
    (b ≤ a → sub32 a b = a - b) ∧ (a < b → sub32 a b = a + 4294967296 - b) := by
  unfold sub32 u32
  omega

/-- The rotation test on the value `main` reads: in a main-loop iteration the
current file is closed (rotation fires) if and only if the step is the
rotation test, the last-successful-write tick is non-zero and (tick value read
- last-write tick) modulo 2^32 is strictly greater than 300; when it fires and
the close succeeds, `main` goes on to `new_file`; otherwise it does not;
rotation never fires while the last-write tick is zero, whatever the tick
counter; and the value read is the tick counter whenever no timer interrupt
falls between the byte loads. -/
theorem rotation_fires_iff (s : Sys) (e : Env) (hloop : s.pc.in_loop = true)
    (hlast : s.timer_last_write < 4294967296) :
    (count_closes (main_step s e).ops = count_closes s.ops + 1 ↔
      (s.pc = Pc.rotate ∧ s.timer_last_write ≠ 0 ∧
        (read_timer s e + 4294967296 - s.timer_last_write) % 4294967296 > 300)) ∧
    ((s.pc = Pc.rotate ∧ s.timer_last_write ≠ 0 ∧
        (read_timer s e + 4294967296 - s.timer_last_write) % 4294967296 > 300) →
      e.fr_close = FR_OK → (main_step s e).pc = Pc.new_file) ∧
    (¬ (s.pc = Pc.rotate ∧ s.timer_last_write ≠ 0 ∧
        (read_timer s e + 4294967296 - s.timer_last_write) % 4294967296 > 300) →
      count_closes (main_step s e).ops = count_closes s.ops ∧
        (main_step s e).pc ≠ Pc.new_file) ∧
    (s.timer_last_write = 0 →
      count_closes (main_step s e).ops = count_closes s.ops ∧
        (main_step s e).pc ≠ Pc.new_file) ∧
    (e.isr1 = e.isr0 → e.isr2 = e.isr0 → e.isr3 = e.isr0 →
      read_timer s e = (s.timer_10msec_cnt + e.isr0) % 4294967296 ∧
        timer_after_read s e = read_timer s e) := by
  have hsub : sub32 (read_timer s e) s.timer_last_write
      = (read_timer s e + 4294967296 - s.timer_last_write) % 4294967296 :=
    (sub32_spec _ _ (load_u32_lt _ _ _ _ _) hlast).1
  have key : ¬ (s.pc = Pc.rotate ∧ s.timer_last_write ≠ 0 ∧
        (read_timer s e + 4294967296 - s.timer_last_write) % 4294967296 > 300) →
      count_closes (main_step s e).ops = count_closes s.ops ∧
        (main_step s e).pc ≠ Pc.new_file := by
    intro hn
    cases hpc : s.pc <;> simp [hpc, Pc.in_loop] at hloop hn <;>
      simp only [main_step, hpc]
    · simp
    · unfold step_drain; split <;> simp
    · simp [step_pop]
    · simp [step_store]
    · unfold step_flush error_blink_halt
      split
      · split <;> simp [count_closes_append, count_closes]
      · simp
    · unfold step_rotate
      by_cases h0 : s.timer_last_write = 0
      · simp [h0]
      · have hle := hn h0
        have hpos : s.timer_last_write > 0 := by omega
        have hng : ¬ sub32 (read_timer s e) s.timer_last_write > 300 := by
          rw [hsub]
          omega
        simp [hpos, hng]
  have fire : (s.pc = Pc.rotate ∧ s.timer_last_write ≠ 0 ∧
        (read_timer s e + 4294967296 - s.timer_last_write) % 4294967296 > 300) →
      count_closes (main_step s e).ops = count_closes s.ops + 1 ∧
        (e.fr_close = FR_OK → (main_step s e).pc = Pc.new_file) := by
    rintro ⟨hpc, h0, hgt⟩
    have hpos : s.timer_last_write > 0 := by omega
    have hg : sub32 (read_timer s e) s.timer_last_write > 300 := by
      rw [hsub]
      exact hgt
    simp only [main_step, hpc, step_rotate, hpos, hg, if_true, error_blink_halt]
    split
    · rename_i hc
      simp [count_closes_append, count_closes, hc]
    · simp [count_closes_append, count_closes]
  refine ⟨⟨?_, fun h => (fire h).1⟩, fun h => (fire h).2, key, ?_, ?_⟩
  · intro hcount
    by_contra hn
    have := (key hn).1
    omega
  · intro h0
    apply key
    intro hh
    exact hh.2.1 h0
  · intro h1 h2 h3
    unfold timer_after_read read_timer u32
    rw [h1, h2, h3, load_u32_untorn]
    simp

/-- Witness for `rotation_fires_iff`: the test fires 396 ticks after a write
made just before the counter wrapped, and does not fire 200 ticks after a
write. -/
theorem rotation_fires_iff_witness :
    count_closes (main_step (Sys.at_rotate 100 4294967000) (Env.ok [] 0)).ops = 1 ∧
    (main_step (Sys.at_rotate 100 4294967000) (Env.ok [] 0)).pc = Pc.new_file ∧
    (100 + 4294967296 - 4294967000) % 4294967296 = 396 ∧
    count_closes (main_step (Sys.at_rotate 400 200) (Env.ok [] 0)).ops = 0 ∧
    (main_step (Sys.at_rotate 400 200) (Env.ok [] 0)).pc = Pc.top ∧
    (count_closes (main_step (Sys.at_rotate 100 4294967000) (Env.ok [] 0)).ops
        = count_closes (Sys.at_rotate 100 4294967000).ops + 1 ↔
      ((Sys.at_rotate 100 4294967000).pc = Pc.rotate ∧
        (Sys.at_rotate 100 4294967000).timer_last_write ≠ 0 ∧
        (read_timer (Sys.at_rotate 100 4294967000) (Env.ok [] 0) + 4294967296
          - (Sys.at_rotate 100 4294967000).timer_last_write) % 4294967296 > 300)) :=
  ⟨by decide, by decide, by decide, by decide, by decide,
    (rotation_fires_iff (Sys.at_rotate 100 4294967000) (Env.ok [] 0) rfl (by decide)).1⟩

/-- C4 (evaluation at the failing input): the last write was at tick 600, the
counter stands at 767 and the timer interrupt runs once between the load of
byte 0 and the loads of bytes 1 to 3 of the read of line 351.  `main` reads
1023, a value the counter never held (it goes from 767 to 768), finds
1023 - 600 > 300 and closes the file, although only 167 (then 168) ticks have
passed since the last write; with the same counter values and no interrupt
inside the read the file stays open.  With the loads in the opposite order the
value read is 512, the difference 512 - 600 wraps to 4294967208, and the file
is closed as well. -/
theorem rotation_fires_on_torn_read :
    read_timer (Sys.at_rotate 767 600) (Env.tick_after_byte0 0) = 1023 ∧
    (main_step (Sys.at_rotate 767 600) (Env.tick_after_byte0 0)).timer_10msec_cnt = 768 ∧
    count_closes (main_step (Sys.at_rotate 767 600) (Env.tick_after_byte0 0)).ops = 1 ∧
    (main_step (Sys.at_rotate 767 600) (Env.tick_after_byte0 0)).pc = Pc.new_file ∧
    (767 + 4294967296 - 600) % 4294967296 = 167 ∧
    (768 + 4294967296 - 600) % 4294967296 = 168 ∧
    count_closes (main_step (Sys.at_rotate 767 600) (Env.ok [] 0)).ops = 0 ∧
    (main_step (Sys.at_rotate 767 600) (Env.ok [] 0)).pc = Pc.top ∧
    count_closes (main_step (Sys.at_rotate 768 600) (Env.ok [] 0)).ops = 0 ∧
    (main_step (Sys.at_rotate 768 600) (Env.ok [] 0)).pc = Pc.top ∧
    read_timer (Sys.at_rotate 767 600) (Env.tick_before_byte0 0) = 512 ∧
    (512 + 4294967296 - 600) % 4294967296 = 4294967208 ∧
    count_closes (main_step (Sys.at_rotate 767 600) (Env.tick_before_byte0 0)).ops = 1 ∧
    (main_step (Sys.at_rotate 767 600) (Env.tick_before_byte0 0)).pc = Pc.new_file := by
  decide

/-! ## The halt state -/

theorem step_halt (s : Sys) (ev : Event) (code : Nat) (h : s.pc = Pc.halt code) :
    (step s ev).pc = Pc.halt code ∧ (step s ev).ops = s.ops := by
  cases ev with
  | rx rxc udr => simp [step, step_rx, h]
  | tick => simp [step, step_tick, h]
  | main e => simp [step, main_step, h]

theorem run_halt (es : List Event) : ∀ (s : Sys) (code : Nat), s.pc = Pc.halt code →
    (run s es).pc = Pc.halt code ∧ (run s es).ops = s.ops := by
  induction es with
  | nil =>
    intro s code h
    exact ⟨h, rfl⟩
  | cons ev es ih =>
    intro s code h
    obtain ⟨h1, h2⟩ := step_halt s ev code h
    obtain ⟨h3, h4⟩ := ih (step s ev) code h1
    have hfold : run s (ev :: es) = run (step s ev) es := rfl
    rw [hfold, h3, h4, h2]
    exact ⟨rfl, rfl⟩

/-! ## The write of the staging block -/

theorem staged_length (s : Sys) : (staged s).length = s.i := by
  simp [staged]

/-- The write of the staging block: in a capture-loop iteration whose staging
block holds `i` bytes, `1 ≤ i ≤ 128`, exactly one write of those `i` bytes is
issued (by the step at `if (i > 0)`; no other step of the loop writes); if
storage reports success and bytes-transferred equals `i`, the staging index is
reset to 0, the written total grows by `i` (an `uint32_t` sum) and the
last-successful-write tick is the value `main` reads from the tick counter,
which is the counter's value whenever no timer interrupt falls between the
byte loads; in every other case the program is in `error_blink_halt(5)` and
stays there, issuing no further call. -/
theorem flush_write_or_halt (s : Sys) (e : Env) (hpc : s.pc = Pc.flush)
    (hlo : 1 ≤ s.i) (hhi : s.i ≤ 128) :
    (main_step s e).ops = s.ops ++ [Op.log_write (staged s) e.fr_write e.bw] ∧
    (staged s).length = s.i ∧
    (∀ (q : Sys) (e1 : Env), q.pc.in_loop = true → q.pc ≠ Pc.flush →
      count_writes (main_step q e1).ops = count_writes q.ops) ∧
    (e.fr_write = FR_OK ∧ e.bw = s.i →
      (main_step s e).i = 0 ∧
      (main_step s e).written_total = (s.written_total + s.i) % 4294967296 ∧
      (s.written_total + s.i < 4294967296 →
        (main_step s e).written_total = s.written_total + s.i) ∧
      (main_step s e).timer_last_write = read_timer s e ∧
      (e.isr1 = e.isr0 → e.isr2 = e.isr0 → e.isr3 = e.isr0 →
        (main_step s e).timer_last_write = (s.timer_10msec_cnt + e.isr0) % 4294967296 ∧
        (main_step s e).timer_last_write = (main_step s e).timer_10msec_cnt) ∧
      (main_step s e).pc = Pc.rotate) ∧
    (¬ (e.fr_write = FR_OK ∧ e.bw = s.i) →
      (main_step s e).pc = Pc.halt 5 ∧
      ∀ es, (run (main_step s e) es).pc = Pc.halt 5 ∧
        (run (main_step s e) es).ops = (main_step s e).ops) := by
  have hpos : s.i > 0 := by omega
  refine ⟨?_, staged_length s, ?_, ?_, ?_⟩
  · simp only [main_step, hpc, step_flush, hpos, if_true, error_blink_halt]
    split <;> rfl
  · intro q e1 hq hnf
    cases hqpc : q.pc <;> simp [hqpc, Pc.in_loop] at hq hnf <;>
      simp only [main_step, hqpc]
    · unfold step_drain; split <;> rfl
    · rfl
    · rfl
    · unfold step_rotate error_blink_halt
      repeat' split
      all_goals simp [count_writes_append, count_writes, Op.is_log_write]
  · intro hok
    simp only [main_step, hpc, step_flush, hpos, if_true, hok, and_self, u32, true_and]
    refine ⟨fun hlt => Nat.mod_eq_of_lt hlt, ?_, trivial⟩
    intro h1 h2 h3
    unfold timer_after_read read_timer u32
    rw [h1, h2, h3, load_u32_untorn]
    simp
  · intro hbad
    have hh : (main_step s e).pc = Pc.halt 5 := by
      simp only [main_step, hpc, step_flush, hpos, if_true, hbad, if_false, error_blink_halt,
        ERR_BLINK_SD_WRITE]
    exact ⟨hh, fun es => run_halt es _ 5 hh⟩

/-- Witness for `flush_write_or_halt`: three staged bytes, the write succeeds. -/
theorem flush_write_or_halt_witness :
    (main_step (Sys.at_flush [1, 2, 3] 10 77) (Env.ok [] 3)).ops
      = [Op.log_write [1, 2, 3] 0 3] ∧
    (main_step (Sys.at_flush [1, 2, 3] 10 77) (Env.ok [] 3)).written_total = 13 ∧
    (main_step (Sys.at_flush [1, 2, 3] 10 77) (Env.ok [] 3)).timer_last_write = 77 ∧
    (main_step (Sys.at_flush [1, 2, 3] 10 77) Env.write_fails).pc = Pc.halt 5 :=
  have h := flush_write_or_halt (Sys.at_flush [1, 2, 3] 10 77) (Env.ok [] 3) rfl
    (by decide) (by decide)
  have hf := flush_write_or_halt (Sys.at_flush [1, 2, 3] 10 77) Env.write_fails rfl
    (by decide) (by decide)
  ⟨h.1, (h.2.2.2.1 ⟨rfl, rfl⟩).2.1, ((h.2.2.2.1 ⟨rfl, rfl⟩).2.2.2.2.1 rfl rfl rfl).1,
    (hf.2.2.2.2 (by decide)).1⟩

/-- C8 (evaluation at the failing input): three bytes are staged, the counter
stands at 255, the write succeeds with 3 bytes transferred, and the timer
interrupt runs once between the load of byte 0 and the loads of bytes 1 to 3
of the read of line 344.  The one write is issued, the staging index is reset
and the total grows by 3, but the last-successful-write tick becomes 511, which
is neither the counter's value before the read (255) nor after it (256); at the
rotation test that follows, 256 - 511 modulo 2^32 exceeds 300 and the file just
written is closed at once. -/
theorem last_write_tick_torn :
    (main_step (Sys.at_flush [1, 2, 3] 10 255) (Env.tick_after_byte0 3)).ops
      = [Op.log_write [1, 2, 3] 0 3] ∧
    (main_step (Sys.at_flush [1, 2, 3] 10 255) (Env.tick_after_byte0 3)).i = 0 ∧
    (main_step (Sys.at_flush [1, 2, 3] 10 255) (Env.tick_after_byte0 3)).written_total = 13 ∧
    (main_step (Sys.at_flush [1, 2, 3] 10 255) (Env.tick_after_byte0 3)).timer_last_write
      = 511 ∧
    (main_step (Sys.at_flush [1, 2, 3] 10 255) (Env.tick_after_byte0 3)).timer_10msec_cnt
      = 256 ∧
    (main_step (Sys.at_flush [1, 2, 3] 10 255) (Env.ok [] 3)).timer_last_write = 255 ∧
    (256 + 4294967296 - 511) % 4294967296 = 4294967041 ∧
    (main_step (main_step (Sys.at_flush [1, 2, 3] 10 255) (Env.tick_after_byte0 3))
      (Env.ok [] 0)).pc = Pc.new_file ∧
    (main_step (main_step (Sys.at_flush [1, 2, 3] 10 255) (Env.ok [] 3))
      (Env.ok [] 0)).pc = Pc.top := by
  decide

/-! ## The capture pipeline invariant -/

theorem flatten_snd_append_last (files : List (List Char × List Byte))
    (f : List Char × List Byte) (d : List Byte) :
    (((files ++ [(f.1, f.2 ++ d)]).map Prod.snd).flatten)
      = ((files ++ [f]).map Prod.snd).flatten ++ d := by
  simp [List.flatten_append]

theorem written_bytes_snoc (ops : List Op) (op : Op) :
    written_bytes (ops ++ [op]) = written_bytes ops ++ op_bytes op := by
  unfold written_bytes log_files
  rw [List.foldl_append]
  simp only [List.foldl_cons, List.foldl_nil]
  generalize List.foldl apply_op [] ops = files
  cases op with
  | f_open name c =>
    cases c with
    | true =>
      simp only [apply_op, op_bytes]
      split <;> simp
    | false => simp [apply_op, op_bytes]
  | log_write data fr bw =>
    simp only [apply_op, op_bytes]
    cases hl : files.getLast? with
    | none =>
      have : files = [] := List.getLast?_eq_none_iff.mp hl
      simp [this]
    | some f =>
      have hf : files = files.dropLast ++ [f] := by
        have := List.dropLast_append_getLast? f hl
        exact this.symm
      simp only
      rw [flatten_snd_append_last, ← hf]
  | _ => simp [apply_op, op_bytes]

theorem written_bytes_append (l : List Op) : ∀ ops : List Op,
    written_bytes (ops ++ l) = written_bytes ops ++ (l.map op_bytes).flatten := by
  induction l with
  | nil => intro ops; simp
  | cons a l ih =>
    intro ops
    have : ops ++ a :: l = (ops ++ [a]) ++ l := by simp
    rw [this, ih, written_bytes_snoc]
    simp

theorem scan_ops_bytes (e : Env) : ((scan_ops e).map op_bytes).flatten = [] := by
  unfold scan_ops
  split <;> simp [op_bytes]

theorem rx_vect_cases (r : Ring) (rxc : Bool) (d : Byte) (h : r.wf) :
    (USART_RX_vect rxc d r).1.wf ∧
    (USART_RX_vect rxc d r).1.buf_usart_head = r.buf_usart_head ∧
    (((USART_RX_vect rxc d r).2 = false ∧ (USART_RX_vect rxc d r).1 = r) ∨
     ((USART_RX_vect rxc d r).2 = true ∧ rxc = true ∧
        (USART_RX_vect rxc d r).1.contents = r.contents ++ [d] ∧
        (USART_RX_vect rxc d r).1.buf_usart_head ≠ (USART_RX_vect rxc d r).1.buf_usart_tail)) := by
  cases rxc with
  | false => simp [USART_RX_vect, h]
  | true =>
    by_cases hf : r.full
    · have hp := push_full r d hf
      unfold Ring.full at hf
      simp [USART_RX_vect, hf, h]
    · have hc : r.count < 255 := by
        have := (full_iff_count r h).not.mp hf
        unfold Ring.count at *
        omega
      have h1 := push_wf r d h
      have h3 := push_contents r d h hc
      unfold push at h1 h3
      refine ⟨h1, ?_, Or.inr ?_⟩
      · unfold Ring.full at hf
        simp [USART_RX_vect, hf]
      · unfold Ring.full at hf
        refine ⟨?_, rfl, h3, ?_⟩
        · simp [USART_RX_vect, hf]
        · simp only [USART_RX_vect, Bool.not_true, Bool.false_eq_true, if_false, hf]
          exact fun hh => hf hh.symm

theorem inv_init : Inv Sys.init := by
  refine ⟨⟨by decide, by decide⟩, rfl, ?_⟩
  simp [Sys.init, written_bytes, log_files, Ring.contents, Ring.count, Ring.init]

theorem inv_rx (s : Sys) (rxc : Bool) (udr : Byte) (h : Inv s) : Inv (step_rx s rxc udr) := by
  obtain ⟨hwf, hcnt, hpc⟩ := h
  obtain ⟨c1, c2, c3⟩ := rx_vect_cases s.ring rxc udr hwf
  unfold Inv step_rx
  refine ⟨c1, ?_, ?_⟩
  · rcases c3 with ⟨hb, _⟩ | ⟨hb, hr, _, _⟩
    · cases rxc <;> simp [hb] <;> omega
    · subst hr
      simp [hb]
      omega
  · rcases c3 with ⟨hb, hr⟩ | ⟨hb, hr, hcont, hne⟩
    · simp only [hb, hr, Bool.false_eq_true, if_false]
      exact hpc
    · simp only [hb, if_true]
      cases hp : s.pc <;> simp only [hp] at hpc ⊢ <;>
        simp only [staged, hcont, hne, ne_eq, not_false_eq_true, and_true] at hpc ⊢ <;>
        simp [hpc]

theorem inv_tick (s : Sys) (h : Inv s) : Inv (step_tick s) := h

theorem staged_store (s : Sys) (h : s.i < 128) :
    staged (step_store s) = staged s ++ [s.uart_d] ∧ (step_store s).i = s.i + 1 := by
  unfold staged step_store u8
  simp only
  rw [Nat.mod_eq_of_lt (by omega), List.range_succ, List.map_append]
  refine ⟨?_, rfl⟩
  congr 1
  · apply List.map_congr_left
    intro j hj
    rw [List.mem_range] at hj
    simp only [arraySet]
    rw [if_neg]
    omega
  · simp [arraySet]

theorem inv_main (s : Sys) (e : Env) (h : Inv s) : Inv (main_step s e) := by
  obtain ⟨hwf, hcnt, hpc⟩ := h
  cases hp : s.pc <;> simp only [hp] at hpc <;> simp only [main_step, hp]
  · -- init
    unfold step_init error_blink_halt
    split
    · exact ⟨hwf, hcnt, trivial⟩
    · split
      · exact ⟨hwf, hcnt, trivial⟩
      · exact ⟨hwf, hcnt, hpc⟩
  · -- scan
    unfold step_scan error_blink_halt
    split
    · exact ⟨hwf, hcnt, trivial⟩
    · refine ⟨hwf, hcnt, ?_⟩
      simp only [written_bytes_append, scan_ops_bytes, List.append_nil]
      exact hpc
  · -- config
    unfold step_config error_blink_halt
    simp only
    split
    · exact ⟨hwf, hcnt, trivial⟩
    · split
      · split
        · exact ⟨hwf, hcnt, trivial⟩
        · split
          · exact ⟨hwf, hcnt, trivial⟩
          · refine ⟨hwf, hcnt, ?_⟩
            simp only [written_bytes_snoc, op_bytes, List.append_nil]
            exact hpc
      · split
        · exact ⟨hwf, hcnt, trivial⟩
        · split
          · exact ⟨hwf, hcnt, trivial⟩
          · split
            · exact ⟨hwf, hcnt, trivial⟩
            · refine ⟨hwf, hcnt, ?_⟩
              simp only [written_bytes_snoc, op_bytes, List.append_nil]
              exact hpc
  · -- new_file
    unfold step_new_file error_blink_halt
    simp only
    split
    · exact ⟨hwf, hcnt, trivial⟩
    · refine ⟨hwf, hcnt, ?_⟩
      simp only [written_bytes_snoc, op_bytes, List.append_nil]
      exact ⟨hpc.1, trivial⟩
  · -- top
    refine ⟨hwf, hcnt, ?_⟩
    simp only [staged, hpc.2, List.range_zero, List.map_nil, List.append_nil]
    exact ⟨hpc.1, by omega⟩
  · -- drain
    unfold step_drain
    split
    · rename_i hc
      exact ⟨hwf, hcnt, hpc.1, hc.1, hc.2⟩
    · exact ⟨hwf, hcnt, hpc⟩
  · -- pop
    obtain ⟨hacc, hi, hne⟩ := hpc
    have hc : s.ring.count ≠ 0 := fun h0 => hne ((empty_iff_count s.ring hwf).mpr h0)
    obtain ⟨r1, hpop, hwf1, _, hcont⟩ := pop_some s.ring hwf (s.ring.count - 1) (by omega)
    have hr1 : r1 = { s.ring with
        buf_usart_head := u8 (s.ring.buf_usart_head + 1) % BUF_USART_SIZE } := by
      unfold pop at hpop
      rw [if_pos hne] at hpop
      simp only [Option.some.injEq, Prod.mk.injEq, true_and] at hpop
      exact hpop.symm
    unfold step_pop
    refine ⟨hr1 ▸ hwf1, hcnt, ?_, hi⟩
    simp only [staged] at hacc ⊢
    rw [hacc, hcont, hr1]
  · -- store
    obtain ⟨hacc, hi⟩ := hpc
    obtain ⟨hs, hi1⟩ := staged_store s hi
    refine ⟨hwf, hcnt, ?_⟩
    have hpc1 : (step_store s).pc = Pc.drain := rfl
    simp only [hpc1, hs, hi1]
    refine ⟨?_, by omega⟩
    simp only [List.append_assoc, List.singleton_append]
    show s.accepted = written_bytes s.ops ++ (staged s ++ s.uart_d :: s.ring.contents)
    rw [hacc, List.append_assoc]
  · -- flush
    obtain ⟨hacc, hi⟩ := hpc
    unfold step_flush error_blink_halt
    split
    · split
      · rename_i hok
        refine ⟨hwf, hcnt, ?_⟩
        simp only [written_bytes_snoc, op_bytes, hok.2]
        refine ⟨?_, trivial⟩
        rw [List.take_of_length_le (by rw [staged_length]), hacc]
      · exact ⟨hwf, hcnt, trivial⟩
    · rename_i h0
      have hz : s.i = 0 := by omega
      refine ⟨hwf, hcnt, ?_, hz⟩
      simp only [staged, hz, List.range_zero, List.map_nil, List.append_nil] at hacc
      exact hacc
  · -- rotate
    unfold step_rotate error_blink_halt
    split
    · split
      · split
        · exact ⟨hwf, hcnt, trivial⟩
        · refine ⟨hwf, hcnt, ?_⟩
          simp only [written_bytes_snoc, op_bytes, List.append_nil]
          exact hpc
      · exact ⟨hwf, hcnt, hpc⟩
    · exact ⟨hwf, hcnt, hpc⟩
  · -- halt
    exact ⟨hwf, hcnt, by simp only [hp]⟩

theorem inv_step (s : Sys) (ev : Event) (h : Inv s) : Inv (step s ev) := by
  cases ev with
  | rx rxc udr => exact inv_rx s rxc udr h
  | tick => exact inv_tick s h
  | main e => exact inv_main s e h

theorem inv_run (es : List Event) : ∀ s : Sys, Inv s → Inv (run s es) := by
  induction es with
  | nil => intro s h; exact h
  | cons ev es ih =>
    intro s h
    exact ih (step s ev) (inv_step s ev h)

/-- C3: in every run from reset (receive interrupts, timer interrupts and steps
of `main` in any order), whenever `main` stands at the head of the capture loop:
the number of bytes accepted by the receive handler (received minus dropped on
a full buffer) equals the number of bytes written over all log files plus the
`(tail - head) mod 256` bytes held in the ring buffer, the staging block is
empty, and the bytes written, concatenated over the files in order, are a
prefix of the accepted bytes. -/
theorem pipeline_conservation (es : List Event) (hpc : (run Sys.init es).pc = Pc.top) :
    (run Sys.init es).accepted.length
      = (run Sys.init es).rx_total - (run Sys.init es).rx_dropped ∧
    (run Sys.init es).rx_total - (run Sys.init es).rx_dropped
      = ((log_files (run Sys.init es).ops).map (fun f => f.2.length)).sum
        + ((run Sys.init es).ring.buf_usart_tail + 256
            - (run Sys.init es).ring.buf_usart_head) % 256 ∧
    (run Sys.init es).i = 0 ∧
    written_bytes (run Sys.init es).ops <+: (run Sys.init es).accepted ∧
    (run Sys.init es).accepted
      = written_bytes (run Sys.init es).ops ++ (run Sys.init es).ring.contents := by
  obtain ⟨_, hcnt, hinv⟩ := inv_run es Sys.init inv_init
  simp only [hpc] at hinv
  obtain ⟨hacc, hi⟩ := hinv
  have hlen : (written_bytes (run Sys.init es).ops).length
      = ((log_files (run Sys.init es).ops).map (fun f => f.2.length)).sum := by
    unfold written_bytes
    rw [List.length_flatten, List.map_map]
    rfl
  have hclen : (run Sys.init es).ring.contents.length
      = ((run Sys.init es).ring.buf_usart_tail + 256
            - (run Sys.init es).ring.buf_usart_head) % 256 := by
    simp [Ring.contents, Ring.count]
  refine ⟨by omega, ?_, hi, ⟨_, hacc.symm⟩, hacc⟩
  have := congrArg List.length hacc
  rw [List.length_append, hlen, hclen] at this
  omega

/-- Witness for C3: a run that boots, writes two bytes and is back at the head
of the loop with a third byte in the ring buffer. -/
theorem pipeline_conservation_witness :
    (run Sys.init demo_run).pc = Pc.top ∧
    written_bytes (run Sys.init demo_run).ops = [1, 2] ∧
    (run Sys.init demo_run).accepted = [1, 2, 3] ∧
    (run Sys.init demo_run).rx_total - (run Sys.init demo_run).rx_dropped
      = ((log_files (run Sys.init demo_run).ops).map (fun f => f.2.length)).sum
        + ((run Sys.init demo_run).ring.buf_usart_tail + 256
            - (run Sys.init demo_run).ring.buf_usart_head) % 256 :=
  ⟨by decide, by decide, by decide, (pipeline_conservation demo_run (by decide)).2.1⟩

/-! ## Rotation: the next file, and no second rotation without a write -/

theorem isr_frame (isrs : List Event) : ∀ s : Sys, (∀ ev ∈ isrs, ev.is_isr = true) →
    (run s isrs).pc = s.pc ∧ (run s isrs).ops = s.ops ∧
    (run s isrs).filename_number = s.filename_number ∧
    (run s isrs).file_config_found = s.file_config_found ∧
    (run s isrs).usart_config = s.usart_config := by
  induction isrs with
  | nil => intro s _; exact ⟨rfl, rfl, rfl, rfl, rfl⟩
  | cons ev isrs ih =>
    intro s h
    have hev := h ev (List.mem_cons_self _ _)
    have hrest := ih (step s ev) (fun x hx => h x (List.mem_cons_of_mem _ hx))
    have hfold : run s (ev :: isrs) = run (step s ev) isrs := rfl
    rw [hfold]
    cases ev with
    | rx rxc udr => exact hrest
    | tick => exact hrest
    | main e => simp [Event.is_isr] at hev

theorem step_ops_prefix (s : Sys) (ev : Event) : ∃ l, (step s ev).ops = s.ops ++ l := by
  cases ev with
  | rx rxc udr => exact ⟨[], by simp [step, step_rx]⟩
  | tick => exact ⟨[], by simp [step, step_tick]⟩
  | main e =>
    simp only [step, main_step]
    cases hp : s.pc <;> simp only
    · unfold step_init error_blink_halt
      split
      · exact ⟨[], by simp⟩
      · split <;> exact ⟨[], by simp⟩
    · unfold step_scan error_blink_halt
      split <;> exact ⟨_, rfl⟩
    · unfold step_config error_blink_halt
      simp only
      repeat' split
      all_goals simp only [List.append_assoc]
      all_goals exact ⟨_, rfl⟩
    · unfold step_new_file error_blink_halt
      simp only
      split
      all_goals simp only [List.append_assoc]
      all_goals exact ⟨_, rfl⟩
    · exact ⟨[], by simp⟩
    · unfold step_drain
      split <;> exact ⟨[], by simp⟩
    · exact ⟨[], by simp [step_pop]⟩
    · exact ⟨[], by simp [step_store]⟩
    · unfold step_flush error_blink_halt
      repeat' split
      all_goals first | exact ⟨_, rfl⟩ | exact ⟨[], by simp⟩
    · unfold step_rotate error_blink_halt
      repeat' split
      all_goals simp only [List.append_assoc]
      all_goals first | exact ⟨_, rfl⟩ | exact ⟨[], by simp⟩
    · exact ⟨[], by simp⟩

theorem count_writes_step (s : Sys) (ev : Event) :
    count_writes s.ops ≤ count_writes (step s ev).ops := by
  obtain ⟨l, hl⟩ := step_ops_prefix s ev
  rw [hl, count_writes_append]
  omega

theorem count_writes_run (es : List Event) : ∀ s : Sys,
    count_writes s.ops ≤ count_writes (run s es).ops := by
  induction es with
  | nil => intro s; exact Nat.le_refl _
  | cons ev es ih =>
    intro s
    exact Nat.le_trans (count_writes_step s ev) (ih (step s ev))

/-- While the last-write tick is zero, a step that writes nothing keeps it
zero, stays in the loop (or halted) and closes and opens nothing. -/
theorem idle_step (s : Sys) (ev : Event)
    (hpc : s.pc.in_loop = true ∨ ∃ c, s.pc = Pc.halt c) (h0 : s.timer_last_write = 0)
    (hw : count_writes (step s ev).ops = count_writes s.ops) :
    ((step s ev).pc.in_loop = true ∨ ∃ c, (step s ev).pc = Pc.halt c) ∧
    (step s ev).timer_last_write = 0 ∧
    count_closes (step s ev).ops = count_closes s.ops ∧
    count_opens (step s ev).ops = count_opens s.ops ∧
    (step s ev).filename_number = s.filename_number := by
  cases ev with
  | rx rxc udr => exact ⟨hpc, h0, rfl, rfl, rfl⟩
  | tick => exact ⟨hpc, h0, rfl, rfl, rfl⟩
  | main e =>
    simp only [step, main_step] at hw ⊢
    cases hp : s.pc <;> simp only [hp, Pc.in_loop, Bool.false_eq_true, false_or, reduceCtorEq,
      exists_false] at hpc <;> simp only [hp] at hw ⊢
    · simp [Pc.in_loop, h0]
    · unfold step_drain
      split <;> exact ⟨Or.inl rfl, h0, rfl, rfl, rfl⟩
    · exact ⟨Or.inl rfl, h0, rfl, rfl, rfl⟩
    · exact ⟨Or.inl rfl, h0, rfl, rfl, rfl⟩
    · unfold step_flush error_blink_halt at hw ⊢
      split
      · rename_i hi
        simp only [hi, if_true] at hw
        split at hw <;>
          simp [count_writes_append, count_writes, Op.is_log_write] at hw
      · exact ⟨Or.inl rfl, h0, rfl, rfl, rfl⟩
    · simp [step_rotate, Pc.in_loop, h0]
    · simp [Pc.in_loop, h0, hp]

theorem idle_run (es : List Event) : ∀ s : Sys,
    (s.pc.in_loop = true ∨ ∃ c, s.pc = Pc.halt c) → s.timer_last_write = 0 →
    count_writes (run s es).ops = count_writes s.ops →
    count_closes (run s es).ops = count_closes s.ops ∧
    count_opens (run s es).ops = count_opens s.ops ∧
    (run s es).filename_number = s.filename_number := by
  induction es with
  | nil => intro s _ _ _; exact ⟨rfl, rfl, rfl⟩
  | cons ev es ih =>
    intro s hpc h0 hw
    have hfold : run s (ev :: es) = run (step s ev) es := rfl
    rw [hfold] at hw ⊢
    have h1 := count_writes_step s ev
    have h2 := count_writes_run es (step s ev)
    have hw1 : count_writes (step s ev).ops = count_writes s.ops := by omega
    obtain ⟨a, b, c, d, f⟩ := idle_step s ev hpc h0 hw1
    obtain ⟨c2, d2, f2⟩ := ih (step s ev) a b (by omega)
    exact ⟨by omega, by omega, by rw [f2, f]⟩

/-- C5: when the rotation test fires (on the tick value `main` reads) while log
file `n` is open and the close succeeds, `main` is at `new_file`; its next step (interrupts may be served in
between) opens the file named for `n + 1` (the `uint32_t` increment of the
file number), and once that open has succeeded the last-write tick and the
written total are zero, and in every continuation in which no staging block is
written no file is closed or opened and the file number stays `n + 1`. -/
theorem rotation_opens_next_once (s : Sys) (e1 e2 : Env) (isrs : List Event)
    (hpc : s.pc = Pc.rotate) (h0 : s.timer_last_write ≠ 0)
    (hgt : sub32 (read_timer s e1) s.timer_last_write > 300)
    (hclose : e1.fr_close = FR_OK) (hisr : ∀ ev ∈ isrs, ev.is_isr = true) :
    (main_step s e1).pc = Pc.new_file ∧
    (two_steps s e1 isrs e2).ops
      = s.ops ++ [Op.f_close, Op.tx_written s.written_total,
          Op.f_open (snprintf_filename ((s.filename_number + 1) % 4294967296)) true]
        ++ (if e2.fr_open = FR_OK
            then [Op.tx_s (snprintf_filename ((s.filename_number + 1) % 4294967296))]
            else []) ∧
    (two_steps s e1 isrs e2).filename_number = (s.filename_number + 1) % 4294967296 ∧
    (s.filename_number + 1 < 4294967296 →
      (two_steps s e1 isrs e2).filename_number = s.filename_number + 1) ∧
    (e2.fr_open = FR_OK →
      (two_steps s e1 isrs e2).pc = Pc.top ∧
      (two_steps s e1 isrs e2).timer_last_write = 0 ∧
      (two_steps s e1 isrs e2).written_total = 0 ∧
      ∀ es, count_writes (run (two_steps s e1 isrs e2) es).ops
            = count_writes (two_steps s e1 isrs e2).ops →
        count_closes (run (two_steps s e1 isrs e2) es).ops
            = count_closes (two_steps s e1 isrs e2).ops ∧
        count_opens (run (two_steps s e1 isrs e2) es).ops
            = count_opens (two_steps s e1 isrs e2).ops ∧
        (run (two_steps s e1 isrs e2) es).filename_number
            = (two_steps s e1 isrs e2).filename_number) := by
  have hpos : s.timer_last_write > 0 := by omega
  have hs1 : main_step s e1
      = { s with timer_10msec_cnt := timer_after_read s e1,
                 ops := s.ops ++ [Op.f_close] ++ [Op.tx_written s.written_total],
                 pc := Pc.new_file } := by
    simp [main_step, hpc, step_rotate, hpos, hgt, hclose]
  obtain ⟨f1, f2, f3, _, _⟩ := isr_frame isrs (main_step s e1) hisr
  rw [hs1] at f1 f2 f3
  simp only at f1 f2 f3
  have hs2 : two_steps s e1 isrs e2 = step_new_file (run (main_step s e1) isrs) e2 := by
    unfold two_steps
    rw [hs1]
    simp only [main_step, f1]
  have hfn : (two_steps s e1 isrs e2).filename_number
      = (s.filename_number + 1) % 4294967296 := by
    rw [hs2, hs1]
    unfold step_new_file error_blink_halt
    simp only [f3, u32]
    split <;> rfl
  refine ⟨by rw [hs1], ?_, hfn, ?_, ?_⟩
  · rw [hs2, hs1]
    unfold step_new_file error_blink_halt
    simp only [f2, f3, u32]
    split
    · rename_i hbad
      simp [hbad]
    · rename_i hok
      rw [not_not] at hok
      simp [hok]
  · intro hlt
    rw [hfn, Nat.mod_eq_of_lt hlt]
  · intro hopen
    have hopen' : ¬ e2.fr_open ≠ FR_OK := by simp [hopen]
    have hp2 : (two_steps s e1 isrs e2).pc = Pc.top := by
      rw [hs2]
      simp only [step_new_file, hopen', if_false]
    have ht2 : (two_steps s e1 isrs e2).timer_last_write = 0 := by
      rw [hs2]
      simp only [step_new_file, hopen', if_false]
    have hw2 : (two_steps s e1 isrs e2).written_total = 0 := by
      rw [hs2]
      simp only [step_new_file, hopen', if_false]
    refine ⟨hp2, ht2, hw2, ?_⟩
    intro es hw
    exact idle_run es _ (Or.inl (by rw [hp2]; rfl)) ht2 hw

/-- Witness for C5: file 7 is open, last write at tick 5, current tick 400; a
tick and a byte are served before file 8 is opened. -/
theorem rotation_opens_next_once_witness :
    (main_step (Sys.rotating 7 400 5 120) (Env.ok [] 0)).pc = Pc.new_file ∧
    (two_steps (Sys.rotating 7 400 5 120) (Env.ok [] 0) [Event.tick, Event.rx true 9]
        (Env.ok [] 0)).ops
      = [Op.f_close, Op.tx_written 120, Op.f_open "LOG00008.BFL".toList true,
          Op.tx_s "LOG00008.BFL".toList] ∧
    (two_steps (Sys.rotating 7 400 5 120) (Env.ok [] 0) [Event.tick, Event.rx true 9]
        (Env.ok [] 0)).filename_number = 8 :=
  have h := rotation_opens_next_once (Sys.rotating 7 400 5 120) (Env.ok [] 0) (Env.ok [] 0)
    [Event.tick, Event.rx true 9] rfl (by decide) (by decide) rfl (by decide)
  ⟨h.1, h.2.1, h.2.2.1⟩

/-! ## Failures during the directory scan -/

theorem readdir_loop_stops_at_error (pre : List (Nat × List Char)) (fr : Nat)
    (nm : List Char) (rest : List (Nat × List Char)) (hfr : fr ≠ FR_OK) :
    ∀ (n num : Int) (conf : Bool),
      readdir_loop (pre ++ (fr, nm) :: rest) n num conf = readdir_loop pre n num conf := by
  induction pre with
  | nil =>
    intro n num conf
    simp [readdir_loop, hfr]
  | cons a pre ih =>
    intro n num conf
    obtain ⟨fr1, nm1⟩ := a
    simp only [List.cons_append, readdir_loop]
    repeat' split
    all_goals first | rfl | exact ih _ _ _

theorem scan_ops_no_open (e : Env) : count_opens (scan_ops e) = 0 := by
  unfold scan_ops count_opens
  split <;> simp [List.filter_replicate, Op.is_open]

theorem count_opens_append (a b : List Op) :
    count_opens (a ++ b) = count_opens a + count_opens b := by
  unfold count_opens
  rw [List.filter_append, List.length_append]

/-- The failures of the start-up scan that do halt: when the directory open or
the directory close reports a failure, the program is in `error_blink_halt(3)`,
stays there, and never issues an `f_open` (neither for the configuration file
nor for a log file).  A failing directory read is not among them: it only ends
the enumeration, and the scan gives what the entries read before it give. -/
theorem dir_open_close_failure_halts (s : Sys) (e : Env) (hpc : s.pc = Pc.scan)
    (hfail : e.fr_opendir ≠ FR_OK ∨ e.fr_closedir ≠ FR_OK) :
    (main_step s e).pc = Pc.halt 3 ∧
    (∀ es, (run (main_step s e) es).pc = Pc.halt 3 ∧
      count_opens (run (main_step s e) es).ops = count_opens s.ops) ∧
    (∀ (pre : List (Nat × List Char)) (fr : Nat) (nm : List Char)
        (rest : List (Nat × List Char)) (o c : Nat), fr ≠ FR_OK →
      filename_number_last o (pre ++ (fr, nm) :: rest) c = filename_number_last o pre c) := by
  have hfn : filename_number_last e.fr_opendir e.dir e.fr_closedir
      = Except.error ERR_BLINK_SD_DIR := by
    unfold filename_number_last
    unfold FR_OK at hfail
    split
    · rfl
    · rename_i ho
      simp only
      rw [if_pos]
      rcases hfail with h | h
      · exact absurd h ho
      · exact h
  have hs : main_step s e = error_blink_halt { s with ops := s.ops ++ scan_ops e } 3 := by
    simp only [main_step, hpc, step_scan, hfn, ERR_BLINK_SD_DIR]
  have hh : (main_step s e).pc = Pc.halt 3 := by rw [hs]; rfl
  refine ⟨hh, ?_, ?_⟩
  · intro es
    obtain ⟨h1, h2⟩ := run_halt es _ 3 hh
    refine ⟨h1, ?_⟩
    rw [h2, hs]
    simp only [error_blink_halt, count_opens_append, scan_ops_no_open, Nat.add_zero]
  · intro pre fr nm rest o c hfr
    unfold filename_number_last
    simp only [readdir_loop_stops_at_error pre fr nm rest hfr]

/-- Witness for `dir_open_close_failure_halts`: `f_opendir` fails at start-up. -/
theorem dir_open_close_failure_halts_witness :
    (main_step (main_step Sys.init (Env.ok [] 0)) Env.opendir_fails).pc = Pc.halt 3 :=
  (dir_open_close_failure_halts (main_step Sys.init (Env.ok [] 0)) Env.opendir_fails rfl
    (Or.inl (by decide))).1

/-- C9 (evaluation at the failing input): the first `f_readdir` fails with
`FR_DISK_ERR`.  The loop is left, `f_closedir` overwrites `fr`, and the scan
ends as on an empty directory: `main` opens the configuration file, then log
file number 1, and reaches the capture loop, without `error_blink_halt(3)`.
The same failure reported by `f_opendir` or by `f_closedir` halts with code 3
before any `f_open`. -/
theorem dir_read_failure_does_not_halt :
    (run Sys.init [Event.main (Env.ok [] 0), Event.main Env.read_fails]).pc = Pc.config ∧
    (run Sys.init [Event.main (Env.ok [] 0), Event.main Env.read_fails,
        Event.main (Env.ok [] 14), Event.main (Env.ok [] 0)]).pc = Pc.top ∧
    (run Sys.init [Event.main (Env.ok [] 0), Event.main Env.read_fails,
        Event.main (Env.ok [] 14), Event.main (Env.ok [] 0)]).ops
      = [Op.f_opendir, Op.f_readdir, Op.f_closedir,
          Op.f_open "config.txt".toList true, Op.cfg_write "234000,8,N,1,3".toList, Op.f_close,
          Op.f_open "LOG00001.BFL".toList true, Op.tx_s "LOG00001.BFL".toList] ∧
    (run Sys.init [Event.main (Env.ok [] 0), Event.main Env.opendir_fails,
        Event.main (Env.ok [] 14), Event.main (Env.ok [] 0)]).pc = Pc.halt 3 ∧
    (run Sys.init [Event.main (Env.ok [] 0), Event.main Env.opendir_fails,
        Event.main (Env.ok [] 14), Event.main (Env.ok [] 0)]).ops = [Op.f_opendir] ∧
    (run Sys.init [Event.main (Env.ok [] 0), Event.main Env.closedir_fails,
        Event.main (Env.ok [] 14), Event.main (Env.ok [] 0)]).pc = Pc.halt 3 ∧
    (run Sys.init [Event.main (Env.ok [] 0), Event.main Env.closedir_fails,
        Event.main (Env.ok [] 14), Event.main (Env.ok [] 0)]).ops
      = [Op.f_opendir, Op.f_readdir, Op.f_closedir] := by
  decide

/-! ## The configuration file test -/

/-- C10 (evaluation at the failing input): the only directory entry is
`config.txt.bak`; `filename_number_last` reports configuration-found = true. -/
theorem config_found_for_longer_name :
    filename_number_last 0 [(0, "config.txt.bak".toList)] 0 = Except.ok (0, true) ∧
    "config.txt.bak".toList ≠ USART_CONFIG_FILENAME := by
  refine ⟨rfl, by decide⟩

/-! ## The directory scan and the file numbers -/

theorem char_eq_of_toNat_eq (c d : Char) (h : c.toNat = d.toNat) : c = d := by
  rw [← Char.ofNat_toNat c, ← Char.ofNat_toNat d, h]

theorem strncmp_eq_zero_iff (p : List Char) (hp : ∀ c ∈ p, c.toNat ≠ 0) :
    ∀ s : List Char, strncmp p s p.length = 0 ↔ p.isPrefixOf s = true := by
  induction p with
  | nil => intro s; simp [strncmp]
  | cons c p ih =>
    intro s
    have hc : c.toNat ≠ 0 := hp c (List.mem_cons_self _ _)
    have ih1 := ih (fun x hx => hp x (List.mem_cons_of_mem _ hx))
    cases s with
    | nil =>
      simp only [List.length_cons, strncmp, List.isPrefixOf_cons_nil]
      constructor
      · intro h
        exact absurd (by exact_mod_cast h) hc
      · intro h
        exact absurd h (by simp)
    | cons d s =>
      simp only [List.length_cons, strncmp, List.isPrefixOf_cons₂]
      by_cases hcd : c = d
      · subst hcd
        simp [ih1 s]
      · have hbeq : (c == d) = false := by simp [hcd]
        simp only [hcd, if_false, hbeq, Bool.false_and, Bool.false_eq_true, iff_false]
        intro h
        apply hcd
        apply char_eq_of_toNat_eq
        omega

theorem log_name_iff (nm : List Char) :
    strncmp FILENAME_PREFIX nm 3 = 0 ↔ is_log_name nm = true :=
  strncmp_eq_zero_iff FILENAME_PREFIX (by decide) nm

theorem sscanf_number_log (nm : List Char) (n : Int) (h : is_log_name nm = true) :
    ((sscanf_number nm n).1 ≠ 1 ∧ first_number nm = 0) ∨
    ((sscanf_number nm n).1 = 1 ∧ (sscanf_number nm n).2 = toInt16 (first_number nm)) := by
  unfold is_log_name at h
  rw [List.isPrefixOf_iff_prefix] at h
  obtain ⟨t, ht⟩ := h
  subst ht
  have hsk : (FILENAME_PREFIX ++ t).takeWhile (fun c => !isDigit c) ≠ [] := by
    simp [FILENAME_PREFIX, List.takeWhile_cons, isDigit]
  unfold sscanf_number first_number
  simp only [hsk, if_false]
  split
  · rename_i hr
    left
    simp [hr, digitsValue]
  · right
    exact ⟨rfl, rfl⟩

theorem toInt16_small (v : Nat) (h : v ≤ 32767) : toInt16 v = (v : Int) := by
  unfold toInt16
  have h1 : v % 65536 = v := Nat.mod_eq_of_lt (by omega)
  rw [h1, if_pos (by omega)]

theorem readdir_loop_max (names : List (List Char)) :
    (∀ nm ∈ names, nm ≠ []) →
    (∀ nm ∈ names, is_log_name nm = true → first_number nm ≤ 32767) →
    ∀ (n : Int) (k : Nat) (conf : Bool),
      (readdir_loop (dir_of names) n (k : Int) conf).1
        = ((((names.filter is_log_name).map first_number).foldl max k : Nat) : Int) := by
  induction names with
  | nil =>
    intro _ _ n k conf
    simp [dir_of, readdir_loop]
  | cons nm names ih =>
    intro hne hb n k conf
    have hnm : nm ≠ [] := hne nm (List.mem_cons_self _ _)
    have ih1 := ih (fun x hx => hne x (List.mem_cons_of_mem _ hx))
      (fun x hx => hb x (List.mem_cons_of_mem _ hx))
    unfold dir_of at ih1 ⊢
    simp only [List.map_cons, readdir_loop, ne_eq, not_true_eq_false, hnm, or_self, if_false]
    by_cases hlog : is_log_name nm = true
    · have hs : strncmp FILENAME_PREFIX nm 3 = 0 := (log_name_iff nm).mpr hlog
      have hbound := hb nm (List.mem_cons_self _ _) hlog
      simp only [hs, not_true_eq_false, if_false, List.filter_cons, hlog, if_true,
        List.map_cons, List.foldl_cons]
      rcases sscanf_number_log nm n hlog with ⟨hrc, hz⟩ | ⟨hrc, hv⟩
      · simp only [hrc, not_false_eq_true, if_true, hz, Nat.max_zero]
        exact ih1 _ k _
      · rw [toInt16_small _ hbound] at hv
        simp only [hrc, not_true_eq_false, if_false, hv]
        split
        · rename_i hlt
          have : max k (first_number nm) = first_number nm := by omega
          rw [this]
          exact ih1 _ _ _
        · rename_i hge
          have : max k (first_number nm) = k := by omega
          rw [this]
          exact ih1 _ k _
    · have hs : strncmp FILENAME_PREFIX nm 3 ≠ 0 := fun h0 => hlog ((log_name_iff nm).mp h0)
      simp only [hs, not_false_eq_true, if_true, List.filter_cons, hlog, Bool.false_eq_true,
        if_false]
      exact ih1 _ k _

theorem foldl_max_le (l : List Nat) (b : Nat) : ∀ k : Nat, k ≤ b → (∀ x ∈ l, x ≤ b) →
    l.foldl max k ≤ b := by
  induction l with
  | nil => intro k hk _; exact hk
  | cons a l ih =>
    intro k hk hl
    simp only [List.foldl_cons]
    apply ih
    · have := hl a (List.mem_cons_self _ _)
      omega
    · exact fun x hx => hl x (List.mem_cons_of_mem _ hx)

theorem max_number_le (names : List (List Char))
    (hb : ∀ nm ∈ names, is_log_name nm = true → first_number nm ≤ 32767) :
    max_number names ≤ 32767 := by
  unfold max_number
  apply foldl_max_le _ _ 0 (by omega)
  intro x hx
  rw [List.mem_map] at hx
  obtain ⟨nm, hnm, rfl⟩ := hx
  rw [List.mem_filter] at hnm
  exact hb nm hnm.1 hnm.2

/-- The scan on a directory whose `LOG` entries carry numbers up to 32767. -/
theorem scan_reports_max (names : List (List Char)) (hne : ∀ nm ∈ names, nm ≠ [])
    (hb : ∀ nm ∈ names, is_log_name nm = true → first_number nm ≤ 32767) :
    filename_number_last FR_OK (dir_of names) FR_OK
      = Except.ok (max_number names, (readdir_loop (dir_of names) 0 0 false).2) := by
  have h := readdir_loop_max names hne hb 0 0 false
  have hle := max_number_le names hb
  unfold max_number at hle
  unfold filename_number_last max_number
  simp only [FR_OK, ne_eq, not_true_eq_false, if_false]
  simp only [FR_OK, Nat.cast_zero] at h
  rw [h]
  congr 2
  unfold u32OfInt
  omega

/-! ## The start-up sequence -/

theorem run_append (s : Sys) (a b : List Event) : run s (a ++ b) = run (run s a) b := by
  unfold run
  rw [List.foldl_append]

theorem run_single (s : Sys) (e : Env) : run s [Event.main e] = main_step s e := rfl

theorem stage_halt (s : Sys) (isrs : List Event) (e : Env) (c : Nat) (h : s.pc = Pc.halt c) :
    (main_step (run s isrs) e).pc = Pc.halt c := by
  have h1 := (run_halt isrs s c h).1
  simp only [main_step, h1]

theorem stage_init (s : Sys) (isrs : List Event) (e : Env) (hpc : s.pc = Pc.init)
    (hisr : ∀ ev ∈ isrs, ev.is_isr = true) :
    ((main_step (run s isrs) e).pc = Pc.scan ∧ (main_step (run s isrs) e).ops = s.ops) ∨
    ∃ c, (main_step (run s isrs) e).pc = Pc.halt c := by
  obtain ⟨f1, f2, _, _, _⟩ := isr_frame isrs s hisr
  rw [hpc] at f1
  simp only [main_step, f1, step_init, error_blink_halt]
  split
  · exact Or.inr ⟨_, rfl⟩
  · split
    · exact Or.inr ⟨_, rfl⟩
    · exact Or.inl ⟨rfl, f2⟩

theorem stage_scan (s : Sys) (isrs : List Event) (e : Env) (hpc : s.pc = Pc.scan)
    (hisr : ∀ ev ∈ isrs, ev.is_isr = true) :
    ((main_step (run s isrs) e).pc = Pc.config ∧
      (main_step (run s isrs) e).ops = s.ops ++ scan_ops e ∧
      filename_number_last e.fr_opendir e.dir e.fr_closedir
        = Except.ok ((main_step (run s isrs) e).filename_number,
            (main_step (run s isrs) e).file_config_found)) ∨
    ∃ c, (main_step (run s isrs) e).pc = Pc.halt c := by
  obtain ⟨f1, f2, _, _, _⟩ := isr_frame isrs s hisr
  rw [hpc] at f1
  simp only [main_step, f1, step_scan, error_blink_halt]
  split
  · exact Or.inr ⟨_, rfl⟩
  · rename_i num found hok
    exact Or.inl ⟨rfl, by simp only [f2], hok⟩

theorem stage_config (s : Sys) (isrs : List Event) (e : Env) (hpc : s.pc = Pc.config)
    (hisr : ∀ ev ∈ isrs, ev.is_isr = true) :
    ((main_step (run s isrs) e).pc = Pc.new_file ∧
      (main_step (run s isrs) e).filename_number = s.filename_number ∧
      count_opens (main_step (run s isrs) e).ops = count_opens s.ops + 1) ∨
    ∃ c, (main_step (run s isrs) e).pc = Pc.halt c := by
  obtain ⟨f1, f2, f3, _, _⟩ := isr_frame isrs s hisr
  rw [hpc] at f1
  simp only [main_step, f1, step_config, error_blink_halt]
  repeat' split
  all_goals first
    | exact Or.inr ⟨_, rfl⟩
    | exact Or.inl ⟨rfl, f3, by simp [f2, count_opens_append, count_opens, Op.is_open]⟩

theorem stage_new_file (s : Sys) (isrs : List Event) (e : Env) (hpc : s.pc = Pc.new_file)
    (hisr : ∀ ev ∈ isrs, ev.is_isr = true) :
    ((main_step (run s isrs) e).pc = Pc.top ∧
      (main_step (run s isrs) e).filename_number = u32 (s.filename_number + 1) ∧
      (main_step (run s isrs) e).filename = snprintf_filename (u32 (s.filename_number + 1)) ∧
      (main_step (run s isrs) e).ops
        = s.ops ++ [Op.f_open (snprintf_filename (u32 (s.filename_number + 1))) true,
            Op.tx_s (snprintf_filename (u32 (s.filename_number + 1)))]) ∨
    ∃ c, (main_step (run s isrs) e).pc = Pc.halt c := by
  obtain ⟨f1, f2, f3, _, _⟩ := isr_frame isrs s hisr
  rw [hpc] at f1
  simp only [main_step, f1, step_new_file, error_blink_halt]
  split
  · exact Or.inr ⟨_, rfl⟩
  · exact Or.inl ⟨rfl, by simp only [f3], by simp only [f3], by simp [f2, f3]⟩

/-- A start-up that reaches the head of the capture loop: what the scan
reported, and the first log file opened. -/
theorem boot_first_file (i0 : List Event) (e0 : Env) (i1 : List Event) (e1 : Env)
    (i2 : List Event) (e2 : Env) (i3 : List Event) (e3 : Env)
    (h0 : ∀ ev ∈ i0, ev.is_isr = true) (h1 : ∀ ev ∈ i1, ev.is_isr = true)
    (h2 : ∀ ev ∈ i2, ev.is_isr = true) (h3 : ∀ ev ∈ i3, ev.is_isr = true)
    (hpc : (run Sys.init (boot_events i0 e0 i1 e1 i2 e2 i3 e3)).pc = Pc.top) :
    ∃ (num : Nat) (found : Bool),
      filename_number_last e1.fr_opendir e1.dir e1.fr_closedir = Except.ok (num, found) ∧
      (run Sys.init (boot_events i0 e0 i1 e1 i2 e2 i3 e3)).filename_number = u32 (num + 1) ∧
      (run Sys.init (boot_events i0 e0 i1 e1 i2 e2 i3 e3)).filename
        = snprintf_filename (u32 (num + 1)) ∧
      count_opens (run Sys.init (boot_events i0 e0 i1 e1 i2 e2 i3 e3)).ops = 2 ∧
      (run Sys.init (boot_events i0 e0 i1 e1 i2 e2 i3 e3)).ops.getLast?
        = some (Op.tx_s (snprintf_filename (u32 (num + 1)))) ∧
      Op.f_open (snprintf_filename (u32 (num + 1))) true
        ∈ (run Sys.init (boot_events i0 e0 i1 e1 i2 e2 i3 e3)).ops := by
  have hrun : run Sys.init (boot_events i0 e0 i1 e1 i2 e2 i3 e3)
      = main_step (run (main_step (run (main_step (run (main_step (run Sys.init i0) e0) i1) e1)
          i2) e2) i3) e3 := by
    unfold boot_events
    simp only [run_append, run_single]
  rw [hrun] at hpc ⊢
  rcases stage_init Sys.init i0 e0 rfl h0 with ⟨a1, a2⟩ | ⟨c, hc⟩
  swap
  · have := stage_halt _ i1 e1 c hc
    have := stage_halt _ i2 e2 c this
    have := stage_halt _ i3 e3 c this
    rw [this] at hpc
    exact absurd hpc (by simp)
  rcases stage_scan _ i1 e1 a1 h1 with ⟨b1, b2, b3⟩ | ⟨c, hc⟩
  swap
  · have := stage_halt _ i2 e2 c hc
    have := stage_halt _ i3 e3 c this
    rw [this] at hpc
    exact absurd hpc (by simp)
  rcases stage_config _ i2 e2 b1 h2 with ⟨c1, c2, c3⟩ | ⟨c, hc⟩
  swap
  · have := stage_halt _ i3 e3 c hc
    rw [this] at hpc
    exact absurd hpc (by simp)
  rcases stage_new_file _ i3 e3 c1 h3 with ⟨d1, d2, d3, d4⟩ | ⟨c, hc⟩
  swap
  · rw [hc] at hpc
    exact absurd hpc (by simp)
  refine ⟨_, _, b3, ?_, ?_, ?_, ?_, ?_⟩
  · rw [d2, c2]
  · rw [d3, c2]
  · rw [d4, count_opens_append, c3, b2, count_opens_append, scan_ops_no_open, a2]
    simp [count_opens, Op.is_open, Sys.init]
  · rw [d4, c2]
    simp
  · rw [d4, c2]
    simp

theorem config_name_iff (nm : List Char) :
    strncmp USART_CONFIG_FILENAME nm (strlen USART_CONFIG_FILENAME) = 0
      ↔ USART_CONFIG_FILENAME.isPrefixOf nm = true :=
  strncmp_eq_zero_iff USART_CONFIG_FILENAME (by decide) nm

/-- What the scan reports as configuration-found: some entry's name begins
with `config.txt`. -/
theorem readdir_loop_found (names : List (List Char)) : (∀ nm ∈ names, nm ≠ []) →
    ∀ (n num : Int) (conf : Bool),
      (readdir_loop (dir_of names) n num conf).2
        = (conf || names.any (fun nm => USART_CONFIG_FILENAME.isPrefixOf nm)) := by
  induction names with
  | nil =>
    intro _ n num conf
    simp [dir_of, readdir_loop]
  | cons nm names ih =>
    intro hne n num conf
    have hnm : nm ≠ [] := hne nm (List.mem_cons_self _ _)
    have ih1 := ih (fun x hx => hne x (List.mem_cons_of_mem _ hx))
    unfold dir_of at ih1 ⊢
    simp only [List.map_cons, readdir_loop, ne_eq, not_true_eq_false, hnm, or_self, if_false,
      List.any_cons]
    by_cases hc : USART_CONFIG_FILENAME.isPrefixOf nm = true
    · have hs := (config_name_iff nm).mpr hc
      simp only [hs, if_true, hc, Bool.true_or, Bool.or_true]
      repeat' split
      all_goals rw [ih1]
      all_goals rfl
    · have hs : ¬ strncmp USART_CONFIG_FILENAME nm (strlen USART_CONFIG_FILENAME) = 0 :=
        fun h0 => hc ((config_name_iff nm).mp h0)
      have hcf : USART_CONFIG_FILENAME.isPrefixOf nm = false := Bool.eq_false_iff.mpr hc
      simp only [hs, if_false, hcf, Bool.false_or]
      repeat' split
      all_goals rw [ih1]

/-! ## Decimal output and the names generated for log files -/

theorem digitChar_toNat (d : Nat) (h : d < 10) : (digitChar d).toNat = 48 + d := by
  interval_cases d <;> rfl

theorem digitChar_isDigit (d : Nat) (h : d < 10) : isDigit (digitChar d) = true := by
  interval_cases d <;> rfl

theorem decimalAux_acc (fuel : Nat) : ∀ (n : Nat) (acc : List Char),
    decimalAux fuel n acc = decimalAux fuel n [] ++ acc := by
  induction fuel with
  | zero => intro n acc; rfl
  | succ fuel ih =>
    intro n acc
    simp only [decimalAux]
    split
    · rfl
    · rw [ih (n / 10) (digitChar (n % 10) :: acc), ih (n / 10) [digitChar (n % 10)]]
      simp

theorem digitsValue_snoc (ds : List Char) (c : Char) :
    digitsValue (ds ++ [c]) = digitsValue ds * 10 + (c.toNat - 48) := by
  simp [digitsValue, List.foldl_append]

theorem digitsValue_decimalAux (fuel : Nat) : ∀ n : Nat, n < 10 ^ fuel →
    digitsValue (decimalAux fuel n []) = n := by
  induction fuel with
  | zero =>
    intro n h
    simp at h
    subst h
    rfl
  | succ fuel ih =>
    intro n h
    simp only [decimalAux]
    have hd := digitChar_toNat (n % 10) (Nat.mod_lt _ (by omega))
    split
    · rename_i h0
      simp only [digitsValue, List.foldl_cons, List.foldl_nil, hd]
      omega
    · rw [decimalAux_acc, digitsValue_snoc, ih (n / 10) (by rw [pow_succ] at h; omega), hd]
      omega

theorem decimalAux_digits (fuel : Nat) :
    ∀ n : Nat, ∀ c ∈ decimalAux fuel n [], isDigit c = true := by
  induction fuel with
  | zero => intro n c hc; simp [decimalAux] at hc
  | succ fuel ih =>
    intro n c hc
    simp only [decimalAux] at hc
    have hd := digitChar_isDigit (n % 10) (Nat.mod_lt _ (by omega))
    split at hc
    · simp at hc
      rw [hc]; exact hd
    · rw [decimalAux_acc, List.mem_append] at hc
      rcases hc with h | h
      · exact ih _ c h
      · simp at h
        rw [h]; exact hd

theorem decimalAux_length (fuel : Nat) : ∀ (n k : Nat), n < 10 ^ (k + 1) →
    (decimalAux (fuel + 1) n []).length ≤ k + 1 ∧ 1 ≤ (decimalAux (fuel + 1) n []).length := by
  induction fuel with
  | zero =>
    intro n k _
    simp only [decimalAux]
    split <;> simp
  | succ fuel ih =>
    intro n k h
    rw [decimalAux]
    split
    · simp
    · rename_i h0
      rw [decimalAux_acc]
      cases k with
      | zero => omega
      | succ k =>
        have := ih (n / 10) k (by rw [pow_succ] at h; omega)
        simp only [List.length_append, List.length_singleton]
        omega
theorem digitsValue_zeros (k : Nat) (ds : List Char) :
    digitsValue (List.replicate k '0' ++ ds) = digitsValue ds := by
  induction k with
  | zero => rfl
  | succ k ih =>
    have h0 : ('0' : Char).toNat - 48 = 0 := by decide
    unfold digitsValue at ih ⊢
    rw [List.replicate_succ, List.cons_append, List.foldl_cons, h0]
    exact ih

/-- The field written by `%05lu` for a number of at most 5 digits: exactly 5
decimal digits whose value is the number. -/
theorem fmt_05lu_spec (n : Nat) (h : n ≤ 99999) :
    (fmt_05lu n).length = 5 ∧ (∀ c ∈ fmt_05lu n, isDigit c = true) ∧
      digitsValue (fmt_05lu n) = n := by
  have hu : u32 n = n := Nat.mod_eq_of_lt (by omega)
  have hlen : (decimalAux 10 n []).length ≤ 5 ∧ 1 ≤ (decimalAux 10 n []).length :=
    decimalAux_length 9 n 4 (by omega)
  have hdig := decimalAux_digits 10 n
  have hval := digitsValue_decimalAux 10 n (by omega)
  unfold fmt_05lu fmt_lu
  rw [hu]
  refine ⟨?_, ?_, ?_⟩
  · rw [List.length_append, List.length_replicate]
    omega
  · intro c hc
    rw [List.mem_append] at hc
    rcases hc with hc | hc
    · rw [(List.mem_replicate.mp hc).2]
      rfl
    · exact hdig c hc
  · rw [digitsValue_zeros, hval]

/-- The name generated for a number of at most 5 digits, and the number the
first digit run of that name gives. -/
theorem snprintf_filename_spec (n : Nat) (h : n ≤ 99999) :
    snprintf_filename n = FILENAME_PREFIX ++ fmt_05lu n ++ FILENAME_SUFFIX ∧
      is_log_name (snprintf_filename n) = true ∧ first_number (snprintf_filename n) = n ∧
      ∀ m : Int, sscanf_number (snprintf_filename n) m = (1, toInt16 n) := by
  obtain ⟨hlen, hdig, hval⟩ := fmt_05lu_spec n h
  have hname : snprintf_filename n = FILENAME_PREFIX ++ fmt_05lu n ++ FILENAME_SUFFIX := by
    unfold snprintf_filename
    apply List.take_of_length_le
    simp [hlen, FILENAME_PREFIX, FILENAME_SUFFIX]
  rw [hname]
  generalize fmt_05lu n = z at hlen hdig hval
  match z, hlen with
  | [a, b, c, d, e], _ =>
    have ha := hdig a (by simp)
    have hb := hdig b (by simp)
    have hc := hdig c (by simp)
    have hd := hdig d (by simp)
    have he := hdig e (by simp)
    have hL : isDigit 'L' = false := by decide
    have hO : isDigit 'O' = false := by decide
    have hG : isDigit 'G' = false := by decide
    have hdot : isDigit '.' = false := by decide
    have hfirst : first_number (FILENAME_PREFIX ++ [a, b, c, d, e] ++ FILENAME_SUFFIX) = n := by
      rw [← hval]
      simp [first_number, FILENAME_PREFIX, FILENAME_SUFFIX, List.dropWhile, List.takeWhile,
        hL, hO, hG, ha, hb, hc, hd, he, hdot]
    refine ⟨rfl, ?_, hfirst, ?_⟩
    · simp [is_log_name, FILENAME_PREFIX]
    · intro m
      rw [← hfirst]
      simp [sscanf_number, first_number, FILENAME_PREFIX, FILENAME_SUFFIX, List.dropWhile,
        List.takeWhile, hL, hO, hG, ha, hb, hc, hd, he, hdot]

/-- Own-format names for numbers up to 32767 are read back by the scan's
`sscanf`; from 32768 on the 16-bit `int` cannot hold the number. -/
theorem own_name_read_back_range (n : Nat) (m : Int) (h : n ≤ 99999) :
    (n ≤ 32767 → sscanf_number (snprintf_filename n) m = (1, (n : Int))) ∧
    (32768 ≤ n → (sscanf_number (snprintf_filename n) m).2 ≠ (n : Int)) := by
  have hs := (snprintf_filename_spec n h).2.2.2 m
  rw [hs]
  refine ⟨?_, ?_⟩
  · intro hn
    rw [toInt16_small n hn]
  · intro hn
    simp only [toInt16]
    split <;> omega

/-! ## Claims on the file number found at start-up -/

/-- C7 (as amended): for every list of root-directory entry names in which the
first digit run of every entry beginning with `LOG` has a value of at most
32767, `filename_number_last` reports the maximum of those values (0 when
there is no such entry), and in every start-up that reaches the capture loop
the first log file `main` opens has that maximum plus 1 as its number. -/
theorem scan_max_then_first_file (names : List (List Char))
    (i0 : List Event) (e0 : Env) (i1 : List Event) (e1 : Env)
    (i2 : List Event) (e2 : Env) (i3 : List Event) (e3 : Env)
    (hne : ∀ nm ∈ names, nm ≠ [])
    (hb : ∀ nm ∈ names, is_log_name nm = true → first_number nm ≤ 32767)
    (h0 : ∀ ev ∈ i0, ev.is_isr = true) (h1 : ∀ ev ∈ i1, ev.is_isr = true)
    (h2 : ∀ ev ∈ i2, ev.is_isr = true) (h3 : ∀ ev ∈ i3, ev.is_isr = true)
    (hdir : e1.dir = dir_of names)
    (hpc : (run Sys.init (boot_events i0 e0 i1 e1 i2 e2 i3 e3)).pc = Pc.top) :
    (∃ found, filename_number_last FR_OK (dir_of names) FR_OK
        = Except.ok (max_number names, found)) ∧
    (run Sys.init (boot_events i0 e0 i1 e1 i2 e2 i3 e3)).filename_number
      = max_number names + 1 ∧
    (run Sys.init (boot_events i0 e0 i1 e1 i2 e2 i3 e3)).filename
      = snprintf_filename (max_number names + 1) ∧
    count_opens (run Sys.init (boot_events i0 e0 i1 e1 i2 e2 i3 e3)).ops = 2 ∧
    Op.f_open (snprintf_filename (max_number names + 1)) true
      ∈ (run Sys.init (boot_events i0 e0 i1 e1 i2 e2 i3 e3)).ops := by
  have hscan := scan_reports_max names hne hb
  have hle := max_number_le names hb
  obtain ⟨num, found, hok, g1, g2, g3, _, g5⟩ :=
    boot_first_file i0 e0 i1 e1 i2 e2 i3 e3 h0 h1 h2 h3 hpc
  have hopen : e1.fr_opendir = 0 := by
    by_contra hne0
    simp [filename_number_last, hne0] at hok
  have hclose : e1.fr_closedir = 0 := by
    by_contra hne0
    simp [filename_number_last, hopen, hne0] at hok
  rw [hopen, hclose, hdir] at hok
  have hscan0 : filename_number_last 0 (dir_of names) 0
      = Except.ok (max_number names, (readdir_loop (dir_of names) 0 0 false).2) := hscan
  rw [hscan0] at hok
  have hnum : num = max_number names := by
    simp only [Except.ok.injEq, Prod.mk.injEq] at hok
    exact hok.1.symm
  have hu : u32 (num + 1) = max_number names + 1 := by
    rw [hnum]
    exact Nat.mod_eq_of_lt (by omega)
  rw [hu] at g1 g2 g5
  exact ⟨⟨_, hscan⟩, g1, g2, g3, g5⟩

/-- Witness for C7 (as amended): the entries `LOG00001.BFL`, `LOG00042.BFL`,
`config.txt` give file number 43; the empty directory gives 1. -/
theorem scan_max_then_first_file_witness :
    (run Sys.init (boot_events [] (Env.ok [] 0) []
        (Env.ok ["LOG00001.BFL".toList, "LOG00042.BFL".toList, "config.txt".toList] 0) []
        (Env.ok [] 0) [] (Env.ok [] 0))).filename_number = 43 ∧
    (run Sys.init (boot_events [] (Env.ok [] 0) []
        (Env.ok ["LOG00001.BFL".toList, "LOG00042.BFL".toList, "config.txt".toList] 0) []
        (Env.ok [] 0) [] (Env.ok [] 0))).filename = "LOG00043.BFL".toList ∧
    (run Sys.init (boot_events [] (Env.ok [] 0) [] (Env.ok [] 0) [] (Env.ok [] 14) []
        (Env.ok [] 0))).filename_number = 1 :=
  have ha := scan_max_then_first_file
    ["LOG00001.BFL".toList, "LOG00042.BFL".toList, "config.txt".toList]
    [] (Env.ok [] 0) []
    (Env.ok ["LOG00001.BFL".toList, "LOG00042.BFL".toList, "config.txt".toList] 0) []
    (Env.ok [] 0) [] (Env.ok [] 0) (by decide) (by decide) (by decide) (by decide) (by decide)
    (by decide) rfl (by decide)
  have hb := scan_max_then_first_file [] [] (Env.ok [] 0) [] (Env.ok [] 0) [] (Env.ok [] 14) []
    (Env.ok [] 0) (by decide) (by decide) (by decide) (by decide) (by decide) (by decide) rfl
    (by decide)
  ⟨ha.2.1, ha.2.2.1, hb.2.1⟩

/-- Counterexample to C7 as stated: for the single entry `LOG4294967338` the
first digit run is 4294967338, which no `uint32_t` result can report (42 is
reported); for the single entry `LOG32768.BFL` it is 32768 and 0 is reported. -/
theorem scan_misses_large_numbers :
    max_number ["LOG4294967338".toList] = 4294967338 ∧
    filename_number_last FR_OK (dir_of ["LOG4294967338".toList]) FR_OK = Except.ok (42, false) ∧
    max_number ["LOG32768.BFL".toList] = 32768 ∧
    filename_number_last FR_OK (dir_of ["LOG32768.BFL".toList]) FR_OK = Except.ok (0, false) :=
  ⟨by decide, rfl, by decide, rfl⟩

/-- C6 (evaluation at the failing input): the name this program generates for
file number 40000 is `LOG40000.BFL`; read back by the scan, `%d` gives the
16-bit `int` -25536, the scan reports 0, and the first log file opened after
the start-up is `LOG00001.BFL`, number 1. -/
theorem own_name_not_read_back :
    snprintf_filename 40000 = "LOG40000.BFL".toList ∧
    sscanf_number (snprintf_filename 40000) 0 = (1, -25536) ∧
    filename_number_last FR_OK (dir_of [snprintf_filename 40000]) FR_OK = Except.ok (0, false) ∧
    (run Sys.init (boot_events [] (Env.ok [] 0) [] (Env.ok [snprintf_filename 40000] 0) []
        (Env.ok [] 14) [] (Env.ok [] 0))).pc = Pc.top ∧
    (run Sys.init (boot_events [] (Env.ok [] 0) [] (Env.ok [snprintf_filename 40000] 0) []
        (Env.ok [] 14) [] (Env.ok [] 0))).filename_number = 1 ∧
    (run Sys.init (boot_events [] (Env.ok [] 0) [] (Env.ok [snprintf_filename 40000] 0) []
        (Env.ok [] 14) [] (Env.ok [] 0))).filename = "LOG00001.BFL".toList :=
  ⟨by decide, by decide, rfl, by decide, by decide, by decide⟩

/-! ## The configuration record written and read back -/

theorem isDigit_bounds (c : Char) (h : isDigit c = true) : 48 ≤ c.toNat ∧ c.toNat ≤ 57 := by
  unfold isDigit at h
  simpa using h

theorem isDigit_not_space (c : Char) (h : isDigit c = true) : isspace c = false := by
  have hb := isDigit_bounds c h
  unfold isspace
  simp
  omega

theorem isDigit_ne (c d : Char) (h : isDigit c = true) (hd : isDigit d = false) : c ≠ d := by
  intro he
  rw [he, hd] at h
  exact absurd h (by simp)

/-- An unsigned conversion on a run of digits followed by a non-digit (or by
the end of the string) takes the whole run and leaves the rest. -/
theorem scan_uint_digits (ds rest : List Char) (hne : ds ≠ [])
    (hall : ∀ c ∈ ds, isDigit c = true) (h1 : rest.takeWhile isDigit = [])
    (h2 : rest.dropWhile isDigit = rest) :
    (ds ++ rest).dropWhile isspace = ds ++ rest ∧
      scan_uint (ds ++ rest) = some (u32 (digitsValue ds), rest) := by
  cases ds with
  | nil => exact absurd rfl hne
  | cons d ds1 =>
    have hd : isDigit d = true := hall d (List.mem_cons_self _ _)
    have hsp : isspace d = false := isDigit_not_space d hd
    have hminus : d ≠ '-' := isDigit_ne d '-' hd (by decide)
    have hplus : d ≠ '+' := isDigit_ne d '+' hd (by decide)
    have htw : (d :: ds1 ++ rest).takeWhile isDigit = d :: ds1 := by
      rw [List.takeWhile_append_of_pos hall, h1, List.append_nil]
    have hdw : (d :: ds1 ++ rest).dropWhile isDigit = rest := by
      rw [List.dropWhile_append_of_pos hall, h2]
    refine ⟨?_, ?_⟩
    · rw [List.cons_append, List.dropWhile_cons_of_neg (by simp [hsp])]
    · unfold scan_uint
      simp only [List.cons_append, List.head?_cons, Option.some.injEq, hminus, hplus, or_self,
        if_false, decide_False, Bool.false_eq_true]
      rw [← List.cons_append, htw, hdw]
      simp

theorem comma_rest (r : List Char) :
    (',' :: r).takeWhile isDigit = [] ∧ (',' :: r).dropWhile isDigit = ',' :: r := by
  have h : ¬ isDigit ',' = true := by decide
  exact ⟨List.takeWhile_cons_of_neg h, List.dropWhile_cons_of_neg h⟩

/-- The field written by `%lu` for a 32-bit value. -/
theorem fmt_lu_spec (n : Nat) (h : n < 4294967296) :
    fmt_lu n ≠ [] ∧ (fmt_lu n).length ≤ 10 ∧ (∀ c ∈ fmt_lu n, isDigit c = true) ∧
      digitsValue (fmt_lu n) = n := by
  have hu : u32 n = n := Nat.mod_eq_of_lt h
  have hlen : (decimalAux 10 n []).length ≤ 10 ∧ 1 ≤ (decimalAux 10 n []).length :=
    decimalAux_length 9 n 9 (by omega)
  unfold fmt_lu
  rw [hu]
  refine ⟨?_, hlen.1, decimalAux_digits 10 n, digitsValue_decimalAux 10 n (by omega)⟩
  intro h0
  rw [h0] at hlen
  simp at hlen

/-- The field written by `%hhu` for an 8-bit value. -/
theorem fmt_hhu_spec (n : Nat) (h : n < 256) :
    fmt_hhu n ≠ [] ∧ (fmt_hhu n).length ≤ 3 ∧ (∀ c ∈ fmt_hhu n, isDigit c = true) ∧
      digitsValue (fmt_hhu n) = n := by
  have hu : u8 n = n := Nat.mod_eq_of_lt h
  have hlen : (decimalAux 10 n []).length ≤ 3 ∧ 1 ≤ (decimalAux 10 n []).length :=
    decimalAux_length 9 n 2 (by omega)
  unfold fmt_hhu
  rw [hu]
  refine ⟨?_, hlen.1, decimalAux_digits 10 n, digitsValue_decimalAux 10 n (by omega)⟩
  intro h0
  rw [h0] at hlen
  simp at hlen

/-- The string `snprintf` leaves in the buffer for a record whose parity is not
NUL: the five fields separated by commas, nothing cut off. -/
theorem snprintf_config_eq (c : usart_config) (hr : c.in_range)
    (hp : c.parity ≠ Char.ofNat 0) :
    snprintf_config c
      = fmt_lu c.baud_rate ++ ',' :: (fmt_hhu c.data_bits ++ ',' :: c.parity :: ',' ::
          (fmt_hhu c.stop_bit ++ ',' :: fmt_hhu c.timeout_sec_close)) ∧
    (snprintf_config c).length ≤ 24 ∧ cstr ((snprintf_config c).take 128) = snprintf_config c := by
  obtain ⟨hb, hd, hs, ht⟩ := hr
  obtain ⟨_, bl, bd, _⟩ := fmt_lu_spec c.baud_rate hb
  obtain ⟨_, dl, dd, _⟩ := fmt_hhu_spec c.data_bits hd
  obtain ⟨_, sl, sd, _⟩ := fmt_hhu_spec c.stop_bit hs
  obtain ⟨_, tl, td, _⟩ := fmt_hhu_spec c.timeout_sec_close ht
  have hnul : ∀ x, isDigit x = true → x ≠ Char.ofNat 0 :=
    fun x hx => isDigit_ne x (Char.ofNat 0) hx (by decide)
  have hcomma : (',' : Char) ≠ Char.ofNat 0 := by decide
  have hall : ∀ x ∈ fmt_lu c.baud_rate ++ ',' :: (fmt_hhu c.data_bits ++ ',' :: c.parity :: ',' ::
      (fmt_hhu c.stop_bit ++ ',' :: fmt_hhu c.timeout_sec_close)), x ≠ Char.ofNat 0 := by
    intro x hx
    simp only [List.mem_append, List.mem_cons] at hx
    rcases hx with h | h | h | h | h | h | h | h | h
    · exact hnul x (bd x h)
    · rw [h]; exact hcomma
    · exact hnul x (dd x h)
    · rw [h]; exact hcomma
    · rw [h]; exact hp
    · rw [h]; exact hcomma
    · exact hnul x (sd x h)
    · rw [h]; exact hcomma
    · exact hnul x (td x h)
  have hlen : (fmt_lu c.baud_rate ++ ',' :: (fmt_hhu c.data_bits ++ ',' :: c.parity :: ',' ::
      (fmt_hhu c.stop_bit ++ ',' :: fmt_hhu c.timeout_sec_close))).length ≤ 24 := by
    simp only [List.length_append, List.length_cons]
    omega
  have hself : cstr (fmt_lu c.baud_rate ++ ',' :: (fmt_hhu c.data_bits ++ ',' :: c.parity :: ',' ::
      (fmt_hhu c.stop_bit ++ ',' :: fmt_hhu c.timeout_sec_close)))
      = fmt_lu c.baud_rate ++ ',' :: (fmt_hhu c.data_bits ++ ',' :: c.parity :: ',' ::
      (fmt_hhu c.stop_bit ++ ',' :: fmt_hhu c.timeout_sec_close)) := by
    unfold cstr
    rw [List.takeWhile_eq_self_iff]
    intro x hx
    simpa using hall x hx
  have heq : snprintf_config c
      = fmt_lu c.baud_rate ++ ',' :: (fmt_hhu c.data_bits ++ ',' :: c.parity :: ',' ::
          (fmt_hhu c.stop_bit ++ ',' :: fmt_hhu c.timeout_sec_close)) := by
    unfold snprintf_config
    simp only [List.append_assoc, List.singleton_append, List.cons_append, List.nil_append]
    rw [List.take_of_length_le (by omega), hself]
  rw [heq]
  refine ⟨rfl, hlen, ?_⟩
  rw [List.take_of_length_le (by omega), hself]

/-- C11 (as amended): for every record whose fields hold values of their C
types (32-bit baud rate, 8-bit data bits, stop bits and idle timeout) and whose
parity character is not NUL, the string `main` writes with
`"%lu,%hhu,%c,%hhu,%hhu"`, parsed with the `sscanf` `main` uses when loading
the file, yields exactly 5 converted fields equal to the record's, whatever the
record held before; the same holds for the string as `main` has it after
reading the file back into its 128-byte buffer. -/
theorem config_roundtrip (c c0 : usart_config) (hr : c.in_range)
    (hp : c.parity ≠ Char.ofNat 0) :
    sscanf_config (snprintf_config c) c0 = (5, c) ∧
    sscanf_config (cstr ((snprintf_config c).take 128)) c0 = (5, c) := by
  obtain ⟨heq, _, hread⟩ := snprintf_config_eq c hr hp
  obtain ⟨hb, hd, hs, ht⟩ := hr
  obtain ⟨bn, _, bd, bv⟩ := fmt_lu_spec c.baud_rate hb
  obtain ⟨dn, _, dd, dv⟩ := fmt_hhu_spec c.data_bits hd
  obtain ⟨sn, _, sd, sv⟩ := fmt_hhu_spec c.stop_bit hs
  obtain ⟨tn, _, td, tv⟩ := fmt_hhu_spec c.timeout_sec_close ht
  obtain ⟨a1, a2⟩ := scan_uint_digits (fmt_lu c.baud_rate)
    (',' :: (fmt_hhu c.data_bits ++ ',' :: c.parity :: ',' ::
      (fmt_hhu c.stop_bit ++ ',' :: fmt_hhu c.timeout_sec_close)))
    bn bd (comma_rest _).1 (comma_rest _).2
  obtain ⟨b1, b2⟩ := scan_uint_digits (fmt_hhu c.data_bits)
    (',' :: c.parity :: ',' :: (fmt_hhu c.stop_bit ++ ',' :: fmt_hhu c.timeout_sec_close))
    dn dd (comma_rest _).1 (comma_rest _).2
  obtain ⟨c1, c2⟩ := scan_uint_digits (fmt_hhu c.stop_bit)
    (',' :: fmt_hhu c.timeout_sec_close) sn sd (comma_rest _).1 (comma_rest _).2
  obtain ⟨d1, d2⟩ := scan_uint_digits (fmt_hhu c.timeout_sec_close) [] tn td rfl rfl
  rw [List.append_nil] at d1 d2
  have hs0 : fmt_lu c.baud_rate ++ ',' :: (fmt_hhu c.data_bits ++ ',' :: c.parity :: ',' ::
      (fmt_hhu c.stop_bit ++ ',' :: fmt_hhu c.timeout_sec_close)) ≠ [] := by
    simp [bn]
  have hu32 : u32 (u32 c.baud_rate) = c.baud_rate := by
    unfold u32
    omega
  have hu8 : ∀ n, n < 256 → u8 (u32 n) = n := by
    intro n hn
    unfold u8 u32
    omega
  have hparse : sscanf_config (snprintf_config c) c0 = (5, c) := by
    rw [heq]
    unfold sscanf_config
    simp only [a1, hs0, if_false, a2, b1, b2, c1, c2, d1, d2, bv, dv, sv, tv, hu32,
      hu8 _ hd, hu8 _ hs, hu8 _ ht]
  exact ⟨hparse, by rw [hread]; exact hparse⟩

/-- Witness for C11 (as amended): the default record of `main`, and the record
with the largest field values and a comma as parity. -/
theorem config_roundtrip_witness :
    snprintf_config usart_config_default = "234000,8,N,1,3".toList ∧
    sscanf_config (snprintf_config usart_config_default) usart_config_extreme
      = (5, usart_config_default) ∧
    snprintf_config usart_config_extreme = "4294967295,255,,,0,255".toList ∧
    sscanf_config (snprintf_config usart_config_extreme) usart_config_default
      = (5, usart_config_extreme) :=
  ⟨by decide,
   (config_roundtrip usart_config_default usart_config_extreme
      ⟨by decide, by decide, by decide, by decide⟩ (by decide)).1,
   by decide,
   (config_roundtrip usart_config_extreme usart_config_default
      ⟨by decide, by decide, by decide, by decide⟩ (by decide)).1⟩

/-- Counterexample to C11 as stated: with the NUL character as parity the
string held by the buffer ends after the second comma, and the parse converts
2 fields, not 5. -/
theorem config_nul_parity_not_read_back :
    snprintf_config usart_config_nul_parity = "234000,8,".toList ∧
    (sscanf_config (snprintf_config usart_config_nul_parity) usart_config_default).1 = 2 := by
  decide

end Yalf
